import Mathlib

/-!
PiFmRds `fm_mpx.c`: FM multiplex generator.

A shallow embedding of `src/fm_mpx.c` and the properties proved about it.

Modelling conventions.
* `float` and `double` values are exact rationals (`ℚ`): every statement below is
  a statement in exact arithmetic, rounding is not modelled.
* C `int` values are `Int`; every counter of the program stays far below `2^31`,
  so no wrap-around is modelled for them.  The product `in_samplerate*FIR_PHASES`
  of the filter design does leave the range of `int` for large rates: it is
  `int_mul`, the product reduced to 32 bits, and a division of integers by `0` has
  no value.  `x & (FIR_SIZE-1)` is `Int.land`, which is the two's complement
  bitwise and.
* The global variables of the translation unit are the fields of `State`.
* `libsndfile` is an oracle `SndFile`: the results of the successive calls of
  `sf_read_float` and `sf_seek`.  The trace fields `nreads`, `nseeks`,
  `hist_left`, `hist_right` of `State` record the calls made and the samples
  pushed; no decision of the code depends on them (apart from selecting the
  oracle's next answer).
* The filter design loop of `fm_mpx_open` calls `sin`, `cos`, `tan` and `sqrt`:
  they are the fields of a record `Libm` of arbitrary functions on exact values,
  and `filter_design` is the loop over such a record.  `fm_mpx_open` takes the
  design as a parameter, and the sample generator works on an arbitrary table
  `low_pass_fir`.
-/

namespace FmMpx

/-! ## Constants and tables -/

/-- The macro `#define FIR_PHASES (32)`. -/
def FIR_PHASES : Int := 32

/-- The macro `#define FIR_SIZE (1024)`. -/
def FIR_SIZE : Int := 1024

/-- The macro `#define FIR_TAPS (FIR_SIZE/FIR_PHASES)`. -/
def FIR_TAPS : Int := Int.tdiv FIR_SIZE FIR_PHASES

/-- Initialiser of `float carrier_38[]`, the decimal literals taken exactly. -/
def carrier_38_init : List ℚ :=
  [0.0, 0.8660254037844386, 0.8660254037844388, 1.2246467991473532e-16,
   -0.8660254037844384, -0.8660254037844386]

/-- Initialiser of `float carrier_19[]`, the decimal literals taken exactly. -/
def carrier_19_init : List ℚ :=
  [0.0, 0.5, 0.8660254037844386, 1.0, 0.8660254037844388, 0.5,
   1.2246467991473532e-16, -0.5, -0.8660254037844384, -1.0,
   -0.8660254037844386, -0.5]

/-- The read `carrier_38[i]` (an index outside the table reads as `0`). -/
def carrier_38 (i : Int) : ℚ :=
  if 0 ≤ i then carrier_38_init.getD i.toNat 0 else 0

/-- The read `carrier_19[i]` (an index outside the table reads as `0`). -/
def carrier_19 (i : Int) : ℚ :=
  if 0 ≤ i then carrier_19_init.getD i.toNat 0 else 0

/-- Conversion `(int) x` of C: truncation toward zero. -/
def c_int (x : ℚ) : Int :=
  if 0 ≤ x then ⌊x⌋ else ⌈x⌉

/-! ## Program state and the sound-file oracle -/

/-- The global variables of `fm_mpx.c`, and a trace of the calls made. -/
structure State where
  /-- global `size_t length` -/
  length : Nat
  /-- whether `inf != NULL` -/
  inf : Bool
  /-- global `float low_pass_fir[FIR_SIZE]` -/
  low_pass_fir : Int → ℚ
  /-- global `int phase_38` -/
  phase_38 : Int
  /-- global `int phase_19` -/
  phase_19 : Int
  /-- global `float downsample_factor` -/
  downsample_factor : ℚ
  /-- global `float *audio_buffer` -/
  audio_buffer : Int → ℚ
  /-- global `int audio_index` -/
  audio_index : Int
  /-- global `int audio_len` -/
  audio_len : Int
  /-- global `float audio_pos` -/
  audio_pos : ℚ
  /-- global `float fir_buffer_left[FIR_SIZE]` -/
  fir_buffer_left : Int → ℚ
  /-- global `float fir_buffer_right[FIR_SIZE]` -/
  fir_buffer_right : Int → ℚ
  /-- global `int fir_index` -/
  fir_index : Int
  /-- global `int channels` -/
  channels : Int
  /-- trace: number of `sf_read_float` calls made so far -/
  nreads : Nat
  /-- trace: number of `sf_seek` calls made so far -/
  nseeks : Nat
  /-- trace: samples stored into `fir_buffer_left`, newest first -/
  hist_left : List ℚ
  /-- trace: samples stored into `fir_buffer_right`, newest first -/
  hist_right : List ℚ

/-- The audio library seen from the program: what its successive calls return. -/
structure SndFile where
  /-- return value of the `k`-th call of `sf_read_float` -/
  read_count : Nat → Int
  /-- items stored into the buffer by the `k`-th call of `sf_read_float` -/
  read_data : Nat → Int → ℚ
  /-- return value of the `k`-th call of `sf_seek` -/
  seek_result : Nat → Int

/-- The header fields of `SF_INFO` that the program reads. -/
structure SF_INFO where
  samplerate : Int
  channels : Int

/-- The caller's `mpx_buffer`. -/
abbrev MpxBuffer := Nat → ℚ

/-- The global variables as initialised statically by the translation unit. -/
def globals0 : State where
  length := 0
  inf := false
  low_pass_fir := fun _ => 0
  phase_38 := 0
  phase_19 := 0
  downsample_factor := 0
  audio_buffer := fun _ => 0
  audio_index := 0
  audio_len := 0
  audio_pos := 0
  fir_buffer_left := fun _ => 0
  fir_buffer_right := fun _ => 0
  fir_index := 0
  channels := 0
  nreads := 0
  nseeks := 0
  hist_left := []
  hist_right := []

/-! ## `fm_mpx_open` -/

/-- The cutoff chosen at lines 120-121:
`float cutoff_freq = 15700; if(in_samplerate/2 < cutoff_freq) cutoff_freq = in_samplerate/2 * .8;`
where `in_samplerate/2` is a division of `int`s. -/
def cutoff_freq (in_samplerate : Int) : ℚ :=
  if ((Int.tdiv in_samplerate 2 : Int) : ℚ) < 15700 then
    ((Int.tdiv in_samplerate 2 : Int) : ℚ) * 0.8
  else 15700

/-- The function `fm_mpx_open(filename, len)`.  `src = none` is `filename == NULL`;
`src = some none` is a file that could not be opened; `src = some (some info)`
is an opened file with header `info`.  `design cutoff rate` is the table that the
filter design loop (lines 124-154, which use `sin`, `cos`, `tan`, `sqrt`) computes
from the cutoff and the sample rate, and `alloc_ok` tells whether
`alloc_empty_buffer` succeeded. -/
def fm_mpx_open (src : Option (Option SF_INFO)) (len : Nat) (design : ℚ → Int → Int → ℚ)
    (alloc_ok : Bool) (g : State) : Int × State :=
  let g := { g with length := len }
  match src with
  | none => (0, { g with inf := false })
  | some none => (-1, { g with inf := false })
  | some (some sfinfo) =>
    let in_samplerate := sfinfo.samplerate
    let g := { g with
      inf := true
      downsample_factor := 228000 / (in_samplerate : ℚ)
      channels := sfinfo.channels
      low_pass_fir := design (cutoff_freq in_samplerate) in_samplerate }
    let g := { g with audio_pos := g.downsample_factor }
    if alloc_ok then (0, { g with audio_buffer := fun _ => 0 }) else (-1, g)

/-! ## `fm_mpx_get_samples` -/

/-- The refill loop `for(int j=0; j<2; j++) { ... }` of lines 195-209, with `n`
iterations left.  The flag is `false` when the loop executed `return -1`. -/
def refill_loop (f : SndFile) : Nat → State → Bool × State
  | 0, s => (true, s)
  | n + 1, s =>
    let cnt := f.read_count s.nreads
    let s1 := { s with
      audio_len := cnt
      audio_buffer := fun p =>
        if 0 ≤ p ∧ p < cnt then f.read_data s.nreads p else s.audio_buffer p
      nreads := s.nreads + 1 }
    if cnt < 0 then (false, s1)
    else if cnt = 0 then
      let s2 := { s1 with nseeks := s1.nseeks + 1 }
      if f.seek_result s1.nseeks < 0 then (false, s2)
      else refill_loop f n s2
    else (true, s1)

/-- Lines 194-214: refill the decode buffer or advance the decode cursor. -/
def next_frame (f : SndFile) (s : State) : Bool × State :=
  if s.audio_len ≤ s.channels then
    match refill_loop f 2 s with
    | (true, s1) => (true, { s1 with audio_index := 0 })
    | (false, s1) => (false, s1)
  else
    (true, { s with
      audio_index := s.audio_index + s.channels
      audio_len := s.audio_len - s.channels })

/-- Lines 216-222: advance `fir_index` and store the current frame into the ring
buffers. -/
def store_sample (s : State) : State :=
  let fi := if s.fir_index + 1 ≥ FIR_SIZE then 0 else s.fir_index + 1
  let s1 := { s with
    fir_index := fi
    fir_buffer_left := Function.update s.fir_buffer_left fi (s.audio_buffer s.audio_index)
    hist_left := s.audio_buffer s.audio_index :: s.hist_left }
  if s.channels > 1 then
    { s1 with
      fir_buffer_right :=
        Function.update s.fir_buffer_right fi (s.audio_buffer (s.audio_index + 1))
      hist_right := s.audio_buffer (s.audio_index + 1) :: s.hist_right }
  else s1

/-- Lines 191-223: the block `if(audio_pos >= downsample_factor) { ... }`. -/
def need_sample (f : SndFile) (s : State) : Bool × State :=
  if s.audio_pos ≥ s.downsample_factor then
    match next_frame f { s with audio_pos := s.audio_pos - s.downsample_factor } with
    | (true, s1) => (true, store_sample s1)
    | (false, s1) => (false, s1)
  else (true, s)

/-- Line 230: `(int) (audio_pos*FIR_PHASES/downsample_factor)`. -/
def raw_phase (s : State) : Int :=
  c_int (s.audio_pos * (FIR_PHASES : ℚ) / s.downsample_factor)

/-- Lines 234-235, the sanity checks on `iphase`. -/
def sanity_check (iphase : Int) : Int :=
  let iphase := if iphase < 0 then 0 else iphase
  if iphase ≥ FIR_PHASES then FIR_PHASES - 2 else iphase

/-- The slot of the ring buffer read for tap `fi`:
`(fir_index-fi)&(FIR_SIZE-1)`. -/
def ring_slot (fir_index fi : Int) : Int :=
  Int.land (fir_index - fi) (FIR_SIZE - 1)

/-- The convolution loop `for(int fi=0; fi<FIR_TAPS; fi++)` over one channel. -/
def fir_sum (coef buf : Int → ℚ) (iphase fir_index : Int) : ℚ :=
  (List.range FIR_TAPS.toNat).foldl
    (fun (acc : ℚ) (fi : Nat) =>
      acc + coef (iphase + FIR_PHASES * (fi : Int)) * buf (ring_slot fir_index (fi : Int)))
    0

/-- Lines 255-270: add the audio contribution to `mpx_buffer[i]` and advance the
carrier phases. -/
def stereo_mpx (s : State) (mpx_buffer : MpxBuffer) (i : Nat) (out_left out_right : ℚ) :
    State × MpxBuffer :=
  if s.channels > 1 then
    let m := Function.update mpx_buffer i
      (mpx_buffer i +
        (4.05 * (out_left + out_right) +
         4.05 * carrier_38 s.phase_38 * (out_left - out_right) +
         0.9 * carrier_19 s.phase_19))
    let p19 := s.phase_19 + 1
    let p38 := s.phase_38 + 1
    ({ s with
        phase_19 := if p19 ≥ 12 then 0 else p19
        phase_38 := if p38 ≥ 6 then 0 else p38 }, m)
  else
    (s, Function.update mpx_buffer i (mpx_buffer i + 9.0 * out_left))

/-- The left output of the polyphase filter in state `s`. -/
def out_left (s : State) : ℚ :=
  fir_sum s.low_pass_fir s.fir_buffer_left (sanity_check (raw_phase s)) s.fir_index

/-- The right output of the polyphase filter in state `s` (`0` unless stereo). -/
def out_right (s : State) : ℚ :=
  if s.channels > 1 then
    fir_sum s.low_pass_fir s.fir_buffer_right (sanity_check (raw_phase s)) s.fir_index
  else 0

/-- One iteration of the loop `for(int i=0; i<length; i++)`.  The flag is `false`
when the iteration executed `return -1`. -/
def tick (f : SndFile) (i : Nat) (s : State) (mpx_buffer : MpxBuffer) :
    Bool × State × MpxBuffer :=
  match need_sample f s with
  | (false, s1) => (false, s1, mpx_buffer)
  | (true, s1) =>
    let r := stereo_mpx s1 mpx_buffer i (out_left s1) (out_right s1)
    (true, { r.1 with audio_pos := r.1.audio_pos + 1 }, r.2)

/-- The loop `for(int i=0; i<length; i++)` from index `i` with `n` iterations to
go; the first component is the value returned by `fm_mpx_get_samples`. -/
def sample_loop (f : SndFile) : Nat → Nat → State → MpxBuffer → Int × State × MpxBuffer
  | 0, _, s, m => (0, s, m)
  | n + 1, i, s, m =>
    match tick f i s m with
    | (false, s1, m1) => (-1, s1, m1)
    | (true, s1, m1) => sample_loop f n (i + 1) s1 m1

/-- The function `fm_mpx_get_samples(mpx_buffer)`; `rds` is what `get_rds_samples` writes into
the first `length` slots. -/
def fm_mpx_get_samples (f : SndFile) (rds : Nat → ℚ) (s : State) (mpx_buffer : MpxBuffer) :
    Int × State × MpxBuffer :=
  let m : MpxBuffer := fun i => if i < s.length then rds i else mpx_buffer i
  if s.inf then sample_loop f s.length 0 s m else (0, s, m)

/-- Successive calls of `fm_mpx_get_samples`, one per element of `rdss`, as long
as the calls return `0`. -/
def chunks (f : SndFile) : List (Nat → ℚ) → State → MpxBuffer → Int × State × MpxBuffer
  | [], s, m => (0, s, m)
  | rds :: rest, s, m =>
    match fm_mpx_get_samples f rds s m with
    | (0, s1, m1) => chunks f rest s1 m1
    | r => r

/-- The relation "`n` iterations of the sample loop, none of which returned `-1`,
lead from `s` to `t`", whatever the output slots and their contents. -/
inductive TicksTo (f : SndFile) : Nat → State → State → Prop
  | refl (s : State) : TicksTo f 0 s s
  | step {n : Nat} {s t u : State} {i : Nat} {m m1 : MpxBuffer} :
      TicksTo f n s t → tick f i t m = (true, u, m1) → TicksTo f (n + 1) s u

/-- The part of the state fixed at open time is the same in `s` and `t`. -/
structure SameConfig (s t : State) : Prop where
  length : t.length = s.length
  inf : t.inf = s.inf
  low_pass_fir : t.low_pass_fir = s.low_pass_fir
  downsample_factor : t.downsample_factor = s.downsample_factor
  channels : t.channels = s.channels

/-- The ring buffer `buf` with newest slot `idx` holds the history `hist` of the
samples pushed (newest first): the sample pushed `j` frames before the newest is
in slot `(k - j) mod FIR_SIZE`, where `k` is the number of samples pushed, and
the slots not yet written hold `0`. -/
def RingHolds (buf : Int → ℚ) (idx : Int) (hist : List ℚ) : Prop :=
  idx = (hist.length : Int) % FIR_SIZE ∧
  ∀ j : Nat, (j : Int) < FIR_SIZE →
    buf (((hist.length : Int) - (j : Int)) % FIR_SIZE) = hist.getD j 0

/-! ## Concrete inputs used by the counterexamples and witnesses -/

/-- An empty audio file: every read is at end of stream, every seek succeeds. -/
def empty_file : SndFile where
  read_count := fun _ => 0
  read_data := fun _ _ => 0
  seek_result := fun _ => 0

/-- The state after opening a mono file at 228000 Hz with chunk length 1. -/
def opened_mono_1 : State :=
  (fm_mpx_open (some (some ⟨228000, 1⟩)) 1 (fun _ _ _ => 0) true globals0).2

/-- An endless stereo stream of constant amplitude 1: every read returns one
frame (two items). -/
def const_stereo_file : SndFile where
  read_count := fun _ => 2
  read_data := fun _ _ => 1
  seek_result := fun _ => 0

/-- An endless mono stream of constant amplitude 2: every read returns one item. -/
def const_mono_file : SndFile where
  read_count := fun _ => 1
  read_data := fun _ _ => 2
  seek_result := fun _ => 0

/-- The state after opening a stereo file at 228000 Hz with chunk length 1. -/
def opened_stereo_1 : State :=
  (fm_mpx_open (some (some ⟨228000, 2⟩)) 1 (fun _ _ _ => 0) true globals0).2

/-- The state after opening a mono file at 456000 Hz (twice the internal rate)
with chunk length 2. -/
def opened_mono_456k : State :=
  (fm_mpx_open (some (some ⟨456000, 1⟩)) 2 (fun _ _ _ => 0) true globals0).2

/-- The state at the interpolation point of the second iteration on the 456000 Hz
stream. -/
def second_interp_456k : State :=
  (need_sample const_mono_file (tick const_mono_file 0 opened_mono_456k (fun _ => 0)).2.1).2

/-- An audio file whose first read fails. -/
def broken_file : SndFile where
  read_count := fun _ => -1
  read_data := fun _ _ => 0
  seek_result := fun _ => 0

/-! ## The filter design loop of `fm_mpx_open` -/

/-- The functions of `math.h` that the filter design calls, as functions on exact
values; nothing is assumed about them. -/
structure Libm where
  sin : ℚ → ℚ
  cos : ℚ → ℚ
  tan : ℚ → ℚ
  sqrt : ℚ → ℚ

/-- The macro `#define PI 3.141592654`. -/
def PI : ℚ := 3.141592654

/-- The product of two `int`s as the 32-bit target computes it: the exact product
reduced to 32 bits in two's complement.  (It is the exact product whenever that
fits an `int`; beyond, the C standard leaves the result undefined and the target
wraps around.) -/
def int_mul (a b : Int) : Int :=
  (a * b + 2147483648) % 4294967296 - 2147483648

/-- The `int` value of `in_samplerate*FIR_PHASES` in lines 133-145. -/
def rate_phases (in_samplerate : Int) : Int :=
  int_mul in_samplerate FIR_PHASES

/-- The term `1/(in_samplerate*FIR_PHASES)` of lines 137-139: both operands are
`int`, so the quotient is the truncating division of integers; there is no value
(the division traps) when the divisor is `0`. -/
def int_term (in_samplerate : Int) : Option Int :=
  if rate_phases in_samplerate = 0 then none
  else some (Int.tdiv 1 (rate_phases in_samplerate))

/-- The local variables `taup, deltap, bp, ap, a0, a1, b1` of `fm_mpx_open`. -/
structure Preemph where
  taup : ℚ
  deltap : ℚ
  bp : ℚ
  ap : ℚ
  a0 : ℚ
  a1 : ℚ
  b1 : ℚ

/-- Lines 130-139 for a value `p` of `in_samplerate*FIR_PHASES` and a value `ti`
of the term `1/(in_samplerate*FIR_PHASES)`. -/
def preemph_values (L : Libm) (p ti : Int) : Preemph :=
  let tau : ℚ := 75e-6
  let delta : ℚ := 1.96e-6
  let fs : ℚ := (p : ℚ)
  let taup := 1.0 / (2.0 * fs) / L.tan (1.0 / (2 * tau * fs))
  let deltap := 1.0 / (2.0 * fs) / L.tan (1.0 / (2 * delta * fs))
  let bp := L.sqrt (-taup * taup +
    L.sqrt (taup * taup * taup * taup + 8.0 * taup * taup * deltap * deltap)) / 2.0
  let ap := L.sqrt (2 * bp * bp + taup * taup)
  let t : ℚ := (ti : ℚ)
  { taup := taup
    deltap := deltap
    bp := bp
    ap := ap
    a0 := (2.0 * ap + t) / (2.0 * bp + t)
    a1 := (-2.0 * ap + t) / (2.0 * bp + t)
    b1 := (2.0 * bp + t) / (2.0 * bp + t) }

/-- Lines 130-139: the coefficients of the IIR pre-emphasis filter; there is none
when the integer division of lines 137-139 traps. -/
def preemph (L : Libm) (in_samplerate : Int) : Option Preemph :=
  match int_term in_samplerate with
  | none => none
  | some ti => some (preemph_values L (rate_phases in_samplerate) ti)

/-- Line 126: `double gain=FIR_PHASES/25.0;`. -/
def gain : ℚ := (FIR_PHASES : ℚ) / 25.0

/-- Line 143: `sincpos = i-((FIR_SIZE+1.0)/2.0);`. -/
def sincpos (i : Nat) : ℚ := (i : ℚ) - ((FIR_SIZE : ℚ) + 1.0) / 2.0

/-- Line 145: the tap `firlowpass` of the sinc low-pass filter at iteration `i`. -/
def firlowpass (L : Libm) (cutoff : ℚ) (in_samplerate : Int) (i : Nat) : ℚ :=
  L.sin (2 * PI * cutoff * sincpos i / ((rate_phases in_samplerate : Int) : ℚ)) /
    (PI * sincpos i)

/-- Line 152: the Hamming window at iteration `i`. -/
def window (L : Libm) (i : Nat) : ℚ :=
  0.54 - 0.46 * L.cos (2 * PI * (i : ℚ) / (FIR_SIZE : ℚ))

/-- The variables `x`, `y` and the table `low_pass_fir` during the design loop. -/
structure DesignState where
  x : ℚ
  y : ℚ
  low_pass_fir : Int → ℚ

/-- Lines 143-153: the body of the design loop at iteration `i`. -/
def design_step (L : Libm) (c : Preemph) (cutoff : ℚ) (in_samplerate : Int) (i : Nat)
    (d : DesignState) : DesignState :=
  let fl := firlowpass L cutoff in_samplerate i
  let y := c.a0 * fl + c.a1 * d.x + c.b1 * d.y
  { x := fl
    y := y
    low_pass_fir := Function.update d.low_pass_fir ((i : Int) - 1) (y * window L i * gain) }

/-- The design loop `for(int i=1; i<=FIR_SIZE; i++)` after its first `n`
iterations, from `x=0, y=0` and the zero-initialised table. -/
def design_loop (L : Libm) (c : Preemph) (cutoff : ℚ) (in_samplerate : Int) :
    Nat → DesignState
  | 0 => { x := 0, y := 0, low_pass_fir := fun _ => 0 }
  | n + 1 => design_step L c cutoff in_samplerate (n + 1) (design_loop L c cutoff in_samplerate n)

/-- Lines 124-154: the table `low_pass_fir` built by `fm_mpx_open` for a cutoff and
a sample rate; there is none when the integer division of lines 137-139 traps. -/
def filter_design (L : Libm) (cutoff : ℚ) (in_samplerate : Int) : Option (Int → ℚ) :=
  match preemph L in_samplerate with
  | none => none
  | some c => some (design_loop L c cutoff in_samplerate FIR_SIZE.toNat).low_pass_fir

/-- A stand-in for `math.h` with constant functions, used to run the design loop
on a concrete input. -/
def const_libm : Libm where
  sin := fun _ => 1
  cos := fun _ => 0
  tan := fun _ => 1
  sqrt := fun _ => 1

/-! # Theorems -/

/-! ## Frame lemmas -/

section frame
variable (s : State) (m : MpxBuffer) (i : Nat) (l r : ℚ)

@[simp] theorem stereo_mpx_nreads : (stereo_mpx s m i l r).1.nreads = s.nreads := by
  unfold stereo_mpx; split_ifs <;> rfl
@[simp] theorem stereo_mpx_nseeks : (stereo_mpx s m i l r).1.nseeks = s.nseeks := by
  unfold stereo_mpx; split_ifs <;> rfl
@[simp] theorem stereo_mpx_audio_len : (stereo_mpx s m i l r).1.audio_len = s.audio_len := by
  unfold stereo_mpx; split_ifs <;> rfl
@[simp] theorem stereo_mpx_audio_index :
    (stereo_mpx s m i l r).1.audio_index = s.audio_index := by
  unfold stereo_mpx; split_ifs <;> rfl
@[simp] theorem stereo_mpx_audio_pos : (stereo_mpx s m i l r).1.audio_pos = s.audio_pos := by
  unfold stereo_mpx; split_ifs <;> rfl
@[simp] theorem stereo_mpx_downsample_factor :
    (stereo_mpx s m i l r).1.downsample_factor = s.downsample_factor := by
  unfold stereo_mpx; split_ifs <;> rfl
@[simp] theorem stereo_mpx_channels : (stereo_mpx s m i l r).1.channels = s.channels := by
  unfold stereo_mpx; split_ifs <;> rfl
@[simp] theorem stereo_mpx_length : (stereo_mpx s m i l r).1.length = s.length := by
  unfold stereo_mpx; split_ifs <;> rfl
@[simp] theorem stereo_mpx_inf : (stereo_mpx s m i l r).1.inf = s.inf := by
  unfold stereo_mpx; split_ifs <;> rfl
@[simp] theorem stereo_mpx_hist_left : (stereo_mpx s m i l r).1.hist_left = s.hist_left := by
  unfold stereo_mpx; split_ifs <;> rfl
@[simp] theorem stereo_mpx_hist_right :
    (stereo_mpx s m i l r).1.hist_right = s.hist_right := by
  unfold stereo_mpx; split_ifs <;> rfl
@[simp] theorem stereo_mpx_fir_index : (stereo_mpx s m i l r).1.fir_index = s.fir_index := by
  unfold stereo_mpx; split_ifs <;> rfl
@[simp] theorem stereo_mpx_fir_buffer_left :
    (stereo_mpx s m i l r).1.fir_buffer_left = s.fir_buffer_left := by
  unfold stereo_mpx; split_ifs <;> rfl
@[simp] theorem stereo_mpx_fir_buffer_right :
    (stereo_mpx s m i l r).1.fir_buffer_right = s.fir_buffer_right := by
  unfold stereo_mpx; split_ifs <;> rfl

@[simp] theorem store_sample_nreads : (store_sample s).nreads = s.nreads := by
  unfold store_sample; split_ifs <;> rfl
@[simp] theorem store_sample_nseeks : (store_sample s).nseeks = s.nseeks := by
  unfold store_sample; split_ifs <;> rfl
@[simp] theorem store_sample_audio_len : (store_sample s).audio_len = s.audio_len := by
  unfold store_sample; split_ifs <;> rfl
@[simp] theorem store_sample_audio_index : (store_sample s).audio_index = s.audio_index := by
  unfold store_sample; split_ifs <;> rfl
@[simp] theorem store_sample_audio_pos : (store_sample s).audio_pos = s.audio_pos := by
  unfold store_sample; split_ifs <;> rfl
@[simp] theorem store_sample_downsample_factor :
    (store_sample s).downsample_factor = s.downsample_factor := by
  unfold store_sample; split_ifs <;> rfl
@[simp] theorem store_sample_channels : (store_sample s).channels = s.channels := by
  unfold store_sample; split_ifs <;> rfl
@[simp] theorem store_sample_length : (store_sample s).length = s.length := by
  unfold store_sample; split_ifs <;> rfl
@[simp] theorem store_sample_inf : (store_sample s).inf = s.inf := by
  unfold store_sample; split_ifs <;> rfl
@[simp] theorem store_sample_phase_19 : (store_sample s).phase_19 = s.phase_19 := by
  unfold store_sample; split_ifs <;> rfl
@[simp] theorem store_sample_phase_38 : (store_sample s).phase_38 = s.phase_38 := by
  unfold store_sample; split_ifs <;> rfl
@[simp] theorem store_sample_hist_left :
    (store_sample s).hist_left = s.audio_buffer s.audio_index :: s.hist_left := by
  unfold store_sample; split_ifs <;> rfl

end frame

/-- Unfolding of one iteration of the sample loop that needs a frame and has to
refill the decode buffer. -/
theorem tick_refill (f : SndFile) (i : Nat) (s : State) (m : MpxBuffer)
    (hpos : s.downsample_factor ≤ s.audio_pos) (hneed : s.audio_len ≤ s.channels) :
    tick f i s m =
      match refill_loop f 2 { s with audio_pos := s.audio_pos - s.downsample_factor } with
      | (true, s1) =>
        let u := store_sample { s1 with audio_index := 0 }
        let r := stereo_mpx u m i (out_left u) (out_right u)
        (true, { r.1 with audio_pos := r.1.audio_pos + 1 }, r.2)
      | (false, s1) => (false, s1, m) := by
  simp only [tick, need_sample, next_frame, ge_iff_le, hpos, hneed, if_true]
  rcases h : refill_loop f 2 { s with audio_pos := s.audio_pos - s.downsample_factor }
    with ⟨b, s1⟩
  cases b <;> simp


/-! ## C1: end of stream during a refill -/

/-- C1, counterexample.  On an empty audio file (every read returns 0 items, every
seek succeeds) the first iteration has to refill, the read and the retry read
both return 0, and yet `fm_mpx_get_samples` returns 0, not -1, after two reads
and two seeks. -/
theorem C1_counterexample :
    opened_mono_1.audio_len ≤ opened_mono_1.channels ∧
    empty_file.read_count 0 = 0 ∧ empty_file.read_count 1 = 0 ∧
    (fm_mpx_get_samples empty_file (fun _ => 0) opened_mono_1 (fun _ => 0)).1 = 0 ∧
    (fm_mpx_get_samples empty_file (fun _ => 0) opened_mono_1 (fun _ => 0)).2.1.nreads = 2 ∧
    (fm_mpx_get_samples empty_file (fun _ => 0) opened_mono_1 (fun _ => 0)).2.1.nseeks = 2 := by
  simp [fm_mpx_get_samples, opened_mono_1, fm_mpx_open, globals0, sample_loop, tick,
    need_sample, next_frame, refill_loop, empty_file]

/-- C1, as amended.  In an iteration of `fm_mpx_get_samples` that needs a frame and
has to refill the decode buffer, when the read returns 0 items: one seek to the
start is made; if it fails the iteration returns -1 after that single read; if it
succeeds exactly one retry read is made (two reads in all).  If the retry read
returns data the iteration goes on with exactly one seek made, the new
`audio_len` and `audio_index = 0`; if it is negative the iteration returns -1
with exactly one seek made; if it returns 0 items too, a second seek is made and
the iteration returns -1 exactly when that seek fails, and otherwise goes on with
`audio_len = 0`, `audio_index = 0`, pushing `audio_buffer[0]` unchanged. -/
theorem C1_eof_rewind_retry (f : SndFile) (i : Nat) (s : State) (m : MpxBuffer)
    (hpos : s.downsample_factor ≤ s.audio_pos) (hneed : s.audio_len ≤ s.channels)
    (h0 : f.read_count s.nreads = 0) :
    (f.seek_result s.nseeks < 0 →
      (tick f i s m).1 = false ∧ (tick f i s m).2.1.nreads = s.nreads + 1 ∧
      (tick f i s m).2.1.nseeks = s.nseeks + 1) ∧
    (0 ≤ f.seek_result s.nseeks →
      (tick f i s m).2.1.nreads = s.nreads + 2 ∧
      (0 < f.read_count (s.nreads + 1) →
        (tick f i s m).1 = true ∧ (tick f i s m).2.1.nseeks = s.nseeks + 1 ∧
        (tick f i s m).2.1.audio_len = f.read_count (s.nreads + 1) ∧
        (tick f i s m).2.1.audio_index = 0) ∧
      (f.read_count (s.nreads + 1) < 0 →
        (tick f i s m).1 = false ∧ (tick f i s m).2.1.nseeks = s.nseeks + 1) ∧
      (f.read_count (s.nreads + 1) = 0 →
        (tick f i s m).2.1.nseeks = s.nseeks + 2 ∧
        ((tick f i s m).1 = true ↔ 0 ≤ f.seek_result (s.nseeks + 1)) ∧
        (0 ≤ f.seek_result (s.nseeks + 1) →
          (tick f i s m).2.1.audio_len = 0 ∧ (tick f i s m).2.1.audio_index = 0 ∧
          (tick f i s m).2.1.hist_left = s.audio_buffer 0 :: s.hist_left))) := by
  rw [tick_refill f i s m hpos hneed]
  refine ⟨fun hs => ?_, fun hs => ?_⟩
  · simp [refill_loop, h0, hs]
  · have hs' : ¬ f.seek_result s.nseeks < 0 := not_lt.mpr hs
    refine ⟨?_, fun hr => ?_, fun hr => ?_, fun hr => ?_⟩
    · simp only [refill_loop, h0, hs', lt_self_iff_false, if_false, if_true]
      split_ifs <;> simp
    · have h1 : ¬ f.read_count (s.nreads + 1) < 0 := not_lt.mpr hr.le
      have h2 : ¬ f.read_count (s.nreads + 1) = 0 := ne_of_gt hr
      simp [refill_loop, h0, hs', h1, h2]
    · simp [refill_loop, h0, hs', hr]
    · simp only [refill_loop, h0, hs', hr, lt_self_iff_false, if_false, if_true]
      split_ifs with h3
      · simp [h3]
      · simp [h3, le_of_not_lt h3]

/-- Witness of `C1_eof_rewind_retry` on the empty file. -/
theorem C1_eof_rewind_retry_witness :
    (tick empty_file 0 opened_mono_1 (fun _ => 0)).2.1.nreads = 2 ∧
    (tick empty_file 0 opened_mono_1 (fun _ => 0)).2.1.nseeks = 2 ∧
    (tick empty_file 0 opened_mono_1 (fun _ => 0)).1 = true := by
  have h := C1_eof_rewind_retry empty_file 0 opened_mono_1 (fun _ => 0)
    (by simp [opened_mono_1, fm_mpx_open, globals0])
    (by simp [opened_mono_1, fm_mpx_open, globals0])
    (by simp [empty_file])
  have h2 := h.2 (by simp [empty_file])
  have h3 := h2.2.2.2 (by simp [empty_file])
  refine ⟨?_, ?_, ?_⟩
  · simpa [opened_mono_1, fm_mpx_open, globals0] using h2.1
  · simpa [opened_mono_1, fm_mpx_open, globals0] using h3.1
  · exact h3.2.1.mpr (by simp [empty_file])


/-! ## Configuration and carrier phases across the steps -/

/-- Every state has its own configuration. -/
theorem SameConfig.rfl_ (s : State) : SameConfig s s := ⟨rfl, rfl, rfl, rfl, rfl⟩

/-- Having the same configuration is transitive. -/
theorem SameConfig.trans_ {s t u : State} (h1 : SameConfig s t) (h2 : SameConfig t u) :
    SameConfig s u :=
  ⟨h2.length.trans h1.length, h2.inf.trans h1.inf, h2.low_pass_fir.trans h1.low_pass_fir,
   h2.downsample_factor.trans h1.downsample_factor, h2.channels.trans h1.channels⟩

/-- The refill loop changes neither the configuration, nor the carrier phases,
nor the ring buffers, nor the position. -/
theorem refill_loop_frame (f : SndFile) (n : Nat) (s : State) :
    SameConfig s (refill_loop f n s).2 ∧
    (refill_loop f n s).2.phase_19 = s.phase_19 ∧
    (refill_loop f n s).2.phase_38 = s.phase_38 ∧
    (refill_loop f n s).2.audio_pos = s.audio_pos ∧
    (refill_loop f n s).2.fir_index = s.fir_index ∧
    (refill_loop f n s).2.fir_buffer_left = s.fir_buffer_left ∧
    (refill_loop f n s).2.fir_buffer_right = s.fir_buffer_right ∧
    (refill_loop f n s).2.hist_left = s.hist_left ∧
    (refill_loop f n s).2.hist_right = s.hist_right := by
  induction n generalizing s with
  | zero => exact ⟨SameConfig.rfl_ s, rfl, rfl, rfl, rfl, rfl, rfl, rfl, rfl⟩
  | succ n ih =>
    simp only [refill_loop]
    split_ifs
    · exact ⟨⟨rfl, rfl, rfl, rfl, rfl⟩, rfl, rfl, rfl, rfl, rfl, rfl, rfl, rfl⟩
    · exact ⟨⟨rfl, rfl, rfl, rfl, rfl⟩, rfl, rfl, rfl, rfl, rfl, rfl, rfl, rfl⟩
    · obtain ⟨a, b⟩ := ih { s with
          audio_len := f.read_count s.nreads
          audio_buffer := fun p =>
            if 0 ≤ p ∧ p < f.read_count s.nreads then f.read_data s.nreads p
            else s.audio_buffer p
          nreads := s.nreads + 1
          nseeks := s.nseeks + 1 }
      exact ⟨⟨a.length, a.inf, a.low_pass_fir, a.downsample_factor, a.channels⟩, b⟩
    · exact ⟨⟨rfl, rfl, rfl, rfl, rfl⟩, rfl, rfl, rfl, rfl, rfl, rfl, rfl, rfl⟩

/-- Fetching a frame changes neither the configuration, nor the carrier phases,
nor the ring buffers, nor the position. -/
theorem next_frame_frame (f : SndFile) (s : State) :
    SameConfig s (next_frame f s).2 ∧
    (next_frame f s).2.phase_19 = s.phase_19 ∧
    (next_frame f s).2.phase_38 = s.phase_38 ∧
    (next_frame f s).2.audio_pos = s.audio_pos ∧
    (next_frame f s).2.fir_index = s.fir_index ∧
    (next_frame f s).2.fir_buffer_left = s.fir_buffer_left ∧
    (next_frame f s).2.fir_buffer_right = s.fir_buffer_right ∧
    (next_frame f s).2.hist_left = s.hist_left ∧
    (next_frame f s).2.hist_right = s.hist_right := by
  unfold next_frame
  split_ifs
  · have h := refill_loop_frame f 2 s
    rcases hr : refill_loop f 2 s with ⟨b, s1⟩
    rw [hr] at h
    cases b
    · exact h
    · obtain ⟨a, b⟩ := h
      exact ⟨⟨a.length, a.inf, a.low_pass_fir, a.downsample_factor, a.channels⟩, b⟩
  · exact ⟨⟨rfl, rfl, rfl, rfl, rfl⟩, rfl, rfl, rfl, rfl, rfl, rfl, rfl, rfl⟩

/-- The block that fetches a frame changes neither the configuration nor the
carrier phases. -/
theorem need_sample_frame (f : SndFile) (s : State) :
    SameConfig s (need_sample f s).2 ∧
    (need_sample f s).2.phase_19 = s.phase_19 ∧
    (need_sample f s).2.phase_38 = s.phase_38 := by
  unfold need_sample
  split_ifs
  · have h := next_frame_frame f { s with audio_pos := s.audio_pos - s.downsample_factor }
    rcases hr : next_frame f { s with audio_pos := s.audio_pos - s.downsample_factor }
      with ⟨b, s1⟩
    rw [hr] at h
    obtain ⟨a, h19, h38, -⟩ := h
    cases b
    · exact ⟨⟨a.length, a.inf, a.low_pass_fir, a.downsample_factor, a.channels⟩, h19, h38⟩
    · refine ⟨⟨?_, ?_, ?_, ?_, ?_⟩, ?_, ?_⟩
      · simpa using a.length
      · simpa using a.inf
      · have := a.low_pass_fir
        simp only [store_sample]
        split_ifs <;> exact this
      · simpa using a.downsample_factor
      · simpa using a.channels
      · simpa using h19
      · simpa using h38
  · exact ⟨SameConfig.rfl_ s, rfl, rfl⟩

/-- An iteration of the sample loop in terms of the state `u` after its fetch
block. -/
theorem tick_of_need_sample (f : SndFile) (i : Nat) (s u : State) (m : MpxBuffer)
    (h : need_sample f s = (true, u)) :
    tick f i s m =
      (true, { (stereo_mpx u m i (out_left u) (out_right u)).1 with
                audio_pos := (stereo_mpx u m i (out_left u) (out_right u)).1.audio_pos + 1 },
       (stereo_mpx u m i (out_left u) (out_right u)).2) := by
  simp [tick, h]

/-- An iteration of the sample loop whose fetch block returned `-1`. -/
theorem tick_of_need_sample_fail (f : SndFile) (i : Nat) (s u : State) (m : MpxBuffer)
    (h : need_sample f s = (false, u)) : tick f i s m = (false, u, m) := by
  simp [tick, h]

/-- An iteration of the sample loop does not change the configuration. -/
theorem tick_config (f : SndFile) (i : Nat) (s : State) (m : MpxBuffer) :
    SameConfig s (tick f i s m).2.1 := by
  have h := (need_sample_frame f s).1
  rcases hr : need_sample f s with ⟨b, u⟩
  rw [hr] at h
  cases b
  · rw [tick_of_need_sample_fail f i s u m hr]; exact h
  · rw [tick_of_need_sample f i s u m hr]
    refine ⟨?_, ?_, ?_, ?_, ?_⟩
    · simpa using h.length
    · simpa using h.inf
    · have := h.low_pass_fir
      simp only [stereo_mpx]
      split_ifs <;> exact this
    · simpa using h.downsample_factor
    · simpa using h.channels

/-! ## C2, C3: the contribution added to the output slot -/

/-- C2.  In stereo operation (`channels > 1`), with `u` the state after the fetch
block of the iteration, the value added to `mpx_buffer[i]` is
`4.05*(left+right) + 4.05*carrier_38[phase_38]*(left-right) + 0.9*carrier_19[phase_19]`
where `left`, `right` are the filter outputs; the same holds of the encoder for
any `left`, `right`; for `left = right = v` the value added is
`8.1*v + 0.9*carrier_19[phase_19]` whatever `phase_38` is, and
`8.1 + 0.9*carrier_19[phase_19]` for `v = 1`. -/
theorem C2_stereo_contribution (f : SndFile) (i : Nat) (s u : State) (m : MpxBuffer)
    (hch : s.channels > 1) (hu : need_sample f s = (true, u)) :
    (tick f i s m).2.2 i - m i =
        4.05 * (out_left u + out_right u) +
        4.05 * carrier_38 s.phase_38 * (out_left u - out_right u) +
        0.9 * carrier_19 s.phase_19 ∧
    (out_left u = out_right u →
      (tick f i s m).2.2 i - m i = 8.1 * out_left u + 0.9 * carrier_19 s.phase_19) ∧
    (∀ l r : ℚ, (stereo_mpx u m i l r).2 i - m i =
        4.05 * (l + r) + 4.05 * carrier_38 s.phase_38 * (l - r) +
        0.9 * carrier_19 s.phase_19) ∧
    (∀ (v : ℚ) (p : Int),
      (stereo_mpx { u with phase_38 := p } m i v v).2 i - m i =
        8.1 * v + 0.9 * carrier_19 s.phase_19) ∧
    (stereo_mpx u m i 1 1).2 i - m i = 8.1 + 0.9 * carrier_19 s.phase_19 := by
  have hf := need_sample_frame f s
  rw [hu] at hf
  obtain ⟨hc, h19, h38⟩ := hf
  have hch' : u.channels > 1 := by rw [hc.channels]; exact hch
  simp only at h19 h38
  have key : ∀ l r : ℚ, (stereo_mpx u m i l r).2 i - m i =
        4.05 * (l + r) + 4.05 * carrier_38 s.phase_38 * (l - r) +
        0.9 * carrier_19 s.phase_19 := by
    intro l r
    simp only [stereo_mpx, hch', if_true, Function.update_same, h19, h38]
    ring
  refine ⟨?_, ?_, key, ?_, ?_⟩
  · rw [tick_of_need_sample f i s u m hu]
    exact key _ _
  · intro h
    rw [tick_of_need_sample f i s u m hu]
    simp only [key, h]
    ring
  · intro v p
    have hp : ({ u with phase_38 := p } : State).channels > 1 := hch'
    simp only [stereo_mpx, hp, if_true, Function.update_same, h19]
    ring
  · rw [key]; ring


/-- On the opened stereo stream the first fetch succeeds. -/
theorem opened_stereo_1_need_sample :
    (need_sample const_stereo_file opened_stereo_1).1 = true := by
  simp [need_sample, next_frame, refill_loop, opened_stereo_1, fm_mpx_open, globals0,
    const_stereo_file]

/-- On the opened mono stream the first fetch succeeds. -/
theorem opened_mono_1_need_sample :
    (need_sample const_mono_file opened_mono_1).1 = true := by
  simp [need_sample, next_frame, refill_loop, opened_mono_1, fm_mpx_open, globals0,
    const_mono_file]

/-- Witness of `C2_stereo_contribution` on the first iteration of a stereo stream. -/
theorem C2_stereo_contribution_witness :
    opened_stereo_1.channels > 1 ∧
    (tick const_stereo_file 0 opened_stereo_1 (fun _ => 5)).2.2 0 - 5 =
      4.05 * (out_left (need_sample const_stereo_file opened_stereo_1).2 +
              out_right (need_sample const_stereo_file opened_stereo_1).2) +
      4.05 * carrier_38 opened_stereo_1.phase_38 *
        (out_left (need_sample const_stereo_file opened_stereo_1).2 -
         out_right (need_sample const_stereo_file opened_stereo_1).2) +
      0.9 * carrier_19 opened_stereo_1.phase_19 :=
  ⟨by simp [opened_stereo_1, fm_mpx_open],
   (C2_stereo_contribution const_stereo_file 0 opened_stereo_1
      (need_sample const_stereo_file opened_stereo_1).2 (fun _ => 5)
      (by simp [opened_stereo_1, fm_mpx_open])
      (Prod.ext opened_stereo_1_need_sample rfl)).1⟩

/-- C3.  In single-channel operation (`channels <= 1`), with `u` the state after
the fetch block of the iteration, `mpx_buffer[i]` after the iteration is its
previous content plus `9.0 * left` (so `left = 2.0` adds exactly `18.0`), the
other slots are unchanged, and `phase_19`, `phase_38` are unchanged. -/
theorem C3_mono_contribution (f : SndFile) (i : Nat) (s u : State) (m : MpxBuffer)
    (hch : s.channels ≤ 1) (hu : need_sample f s = (true, u)) :
    (tick f i s m).2.2 i = m i + 9.0 * out_left u ∧
    (out_left u = 2.0 → (tick f i s m).2.2 i - m i = 18.0) ∧
    (tick f i s m).2.1.phase_19 = s.phase_19 ∧
    (tick f i s m).2.1.phase_38 = s.phase_38 ∧
    (∀ j : Nat, j ≠ i → (tick f i s m).2.2 j = m j) ∧
    (∀ l r : ℚ, (stereo_mpx u m i l r).2 i = m i + 9.0 * l) ∧
    (∀ r : ℚ, (stereo_mpx u m i 2.0 r).2 i - m i = 18.0) := by
  have hf := need_sample_frame f s
  rw [hu] at hf
  obtain ⟨hc, h19, h38⟩ := hf
  have hch' : ¬ u.channels > 1 := by rw [hc.channels]; exact not_lt.mpr hch
  simp only at h19 h38
  have key : ∀ l r : ℚ, (stereo_mpx u m i l r).2 i = m i + 9.0 * l := by
    intro l r
    simp only [stereo_mpx, hch', if_false, Function.update_same]
  rw [tick_of_need_sample f i s u m hu]
  refine ⟨key _ _, ?_, ?_, ?_, ?_, key, ?_⟩
  · intro h
    simp only [key, h]
    norm_num
  · simp only [stereo_mpx, hch', if_false, h19]
  · simp only [stereo_mpx, hch', if_false, h38]
  · intro j hj
    simp only [stereo_mpx, hch', if_false, Function.update_noteq hj]
  · intro r
    rw [key]; norm_num

/-- Witness of `C3_mono_contribution` on the first iteration of a mono stream. -/
theorem C3_mono_contribution_witness :
    opened_mono_1.channels ≤ 1 ∧
    (tick const_mono_file 0 opened_mono_1 (fun _ => 5)).2.2 0 =
      5 + 9.0 * out_left (need_sample const_mono_file opened_mono_1).2 :=
  ⟨by simp [opened_mono_1, fm_mpx_open],
   (C3_mono_contribution const_mono_file 0 opened_mono_1
      (need_sample const_mono_file opened_mono_1).2 (fun _ => 5)
      (by simp [opened_mono_1, fm_mpx_open])
      (Prod.ext opened_mono_1_need_sample rfl)).1⟩


/-! ## C4, C5: the cutoff frequency -/

/-- The cutoff in terms of the integer quotient `rate / 2`. -/
theorem cutoff_freq_pos (rate : Int) (hpos : 0 < rate) :
    (31400 ≤ rate → cutoff_freq rate = 15700) ∧
    (rate < 31400 → cutoff_freq rate = ((rate / 2 : Int) : ℚ) * 0.8) := by
  have htd : Int.tdiv rate 2 = rate / 2 := Int.tdiv_eq_ediv hpos.le (by norm_num)
  unfold cutoff_freq
  rw [htd]
  constructor
  · intro h
    have h2 : (15700 : Int) ≤ rate / 2 := by omega
    have h3 : ¬ (((rate / 2 : Int) : ℚ) < 15700) := by
      rw [not_lt]; exact_mod_cast h2
    rw [if_neg h3]
  · intro h
    have h2 : rate / 2 < (15700 : Int) := by omega
    have h3 : (((rate / 2 : Int) : ℚ) < 15700) := by exact_mod_cast h2
    rw [if_pos h3]

/-- C4, the code at the failing input.  For the odd rate 11025 Hz the code chooses
`(11025/2) * 0.8 = 5512 * 0.8 = 4409.6`, not `0.8 * 11025 / 2 = 4410`: the
quotient `in_samplerate/2` is a division of integers. -/
theorem C4_cutoff_odd_rate :
    cutoff_freq 11025 = 4409.6 ∧ (0.8 * (11025 : ℚ) / 2 = 4410) ∧
    cutoff_freq 11025 ≠ 0.8 * (11025 : ℚ) / 2 := by
  have h : cutoff_freq 11025 = 4409.6 := by
    rw [(cutoff_freq_pos 11025 (by norm_num)).2 (by norm_num)]
    norm_num
  refine ⟨h, by norm_num, ?_⟩
  rw [h]; norm_num

/-- C5, counterexample.  At 32000 Hz the code chooses 15700, while
`min(15700, 0.8 * 32000 / 2) = 12800`. -/
theorem C5_counterexample :
    cutoff_freq 32000 = 15700 ∧ min (15700 : ℚ) (0.8 * (32000 : ℚ) / 2) = 12800 ∧
    cutoff_freq 32000 ≠ min (15700 : ℚ) (0.8 * (32000 : ℚ) / 2) := by
  have h : cutoff_freq 32000 = 15700 := (cutoff_freq_pos 32000 (by norm_num)).1 (by norm_num)
  have h2 : min (15700 : ℚ) (0.8 * (32000 : ℚ) / 2) = 12800 := by
    rw [min_eq_right] <;> norm_num
  refine ⟨h, h2, ?_⟩
  rw [h, h2]; norm_num

/-- C5, as amended.  For every positive rate the cutoff is 15700 when
`rate >= 31400`, and `0.8 * rate / 2` when the rate is even and below 31400; it
equals `min(15700, 0.8 * rate / 2)` when `rate >= 39250` or when the rate is even
and below 31400; for `31400 <= rate < 39250` it is 15700, which is greater than
that minimum. -/
theorem C5_cutoff_selection (rate : Int) (hpos : 0 < rate) :
    (31400 ≤ rate → cutoff_freq rate = 15700) ∧
    (rate < 31400 → 2 ∣ rate → cutoff_freq rate = 0.8 * (rate : ℚ) / 2) ∧
    (39250 ≤ rate → cutoff_freq rate = min 15700 (0.8 * (rate : ℚ) / 2)) ∧
    (rate < 31400 → 2 ∣ rate → cutoff_freq rate = min 15700 (0.8 * (rate : ℚ) / 2)) ∧
    (31400 ≤ rate → rate < 39250 →
      min 15700 (0.8 * (rate : ℚ) / 2) < cutoff_freq rate) := by
  obtain ⟨hhi, hlo⟩ := cutoff_freq_pos rate hpos
  have heven : rate < 31400 → 2 ∣ rate → cutoff_freq rate = 0.8 * (rate : ℚ) / 2 := by
    intro h hd
    obtain ⟨k, rfl⟩ := hd
    rw [hlo h]
    have : (2 * k) / 2 = k := by omega
    rw [this]
    push_cast
    ring
  refine ⟨hhi, heven, ?_, ?_, ?_⟩
  · intro h
    have h1 : (39250 : ℚ) ≤ (rate : ℚ) := by exact_mod_cast h
    rw [hhi (by omega), min_eq_left]
    linarith
  · intro h hd
    have h1 : (rate : ℚ) < 31400 := by exact_mod_cast h
    rw [heven h hd, min_eq_right]
    linarith
  · intro h1 h2
    have h3 : (rate : ℚ) < 39250 := by exact_mod_cast h2
    rw [hhi h1]
    apply min_lt_of_right_lt
    linarith

/-- Witness of `C5_cutoff_selection` at 44100 Hz and 22050 Hz. -/
theorem C5_cutoff_selection_witness :
    cutoff_freq 44100 = 15700 ∧ cutoff_freq 22050 = 0.8 * ((22050 : Int) : ℚ) / 2 :=
  ⟨(C5_cutoff_selection 44100 (by norm_num)).1 (by norm_num),
   (C5_cutoff_selection 22050 (by norm_num)).2.1 (by norm_num) (by norm_num)⟩


/-! ## Runs of the sample loop -/

/-- A successful iteration, read backwards: its fetch block succeeded in some
state `u`, and the final state is `u` after the encoder and `audio_pos++`. -/
theorem tick_inv (f : SndFile) (i : Nat) (s t : State) (m m1 : MpxBuffer)
    (h : tick f i s m = (true, t, m1)) :
    ∃ u, need_sample f s = (true, u) ∧
      t = { (stereo_mpx u m i (out_left u) (out_right u)).1 with
            audio_pos := (stereo_mpx u m i (out_left u) (out_right u)).1.audio_pos + 1 } := by
  rcases hr : need_sample f s with ⟨b, u⟩
  cases b
  · rw [tick_of_need_sample_fail f i s u m hr] at h
    simp at h
  · rw [tick_of_need_sample f i s u m hr] at h
    exact ⟨u, rfl, (congrArg (fun p => p.2.1) h).symm⟩

/-- The fetch block, when it succeeds: the position loses `downsample_factor`
and one frame is pushed if `audio_pos >= downsample_factor`, nothing changes
otherwise. -/
theorem need_sample_inv (f : SndFile) (s u : State) (h : need_sample f s = (true, u)) :
    (s.downsample_factor ≤ s.audio_pos →
      u.audio_pos = s.audio_pos - s.downsample_factor ∧
      ∃ v, next_frame f { s with audio_pos := s.audio_pos - s.downsample_factor } = (true, v) ∧
        u = store_sample v) ∧
    (s.audio_pos < s.downsample_factor → u = s) := by
  unfold need_sample at h
  constructor
  · intro hp
    rw [if_pos hp] at h
    have hfr := next_frame_frame f { s with audio_pos := s.audio_pos - s.downsample_factor }
    rcases hr : next_frame f { s with audio_pos := s.audio_pos - s.downsample_factor }
      with ⟨b, v⟩
    rw [hr] at h hfr
    cases b
    · simp at h
    · simp only [Prod.mk.injEq, true_and] at h
      subst h
      exact ⟨by simpa using hfr.2.2.2.1, v, rfl, rfl⟩
  · intro hp
    rw [if_neg (not_le.mpr hp)] at h
    simp only [Prod.mk.injEq, true_and] at h
    exact h.symm

/-- With a reader that never fails, the refill loop never returns `-1`. -/
theorem refill_loop_ok (f : SndFile) (hr : ∀ k, 0 ≤ f.read_count k)
    (hs : ∀ k, 0 ≤ f.seek_result k) (n : Nat) (s : State) :
    (refill_loop f n s).1 = true := by
  induction n generalizing s with
  | zero => rfl
  | succ n ih =>
    simp only [refill_loop]
    rw [if_neg (not_lt.mpr (hr _))]
    split_ifs with h1 h2
    · exact absurd h2 (not_lt.mpr (hs _))
    · exact ih _
    · rfl

/-- With a reader that never fails, an iteration never returns `-1`. -/
theorem tick_ok (f : SndFile) (hr : ∀ k, 0 ≤ f.read_count k)
    (hs : ∀ k, 0 ≤ f.seek_result k) (i : Nat) (s : State) (m : MpxBuffer) :
    (tick f i s m).1 = true := by
  have hn : (need_sample f s).1 = true := by
    unfold need_sample
    split_ifs
    · have : (next_frame f { s with audio_pos := s.audio_pos - s.downsample_factor }).1
          = true := by
        unfold next_frame
        split_ifs
        · have := refill_loop_ok f hr hs 2
            { s with audio_pos := s.audio_pos - s.downsample_factor }
          rcases h : refill_loop f 2 { s with audio_pos := s.audio_pos - s.downsample_factor }
            with ⟨b, v⟩
          rw [h] at this
          simp only at this
          subst this
          rfl
        · rfl
      rcases h : next_frame f { s with audio_pos := s.audio_pos - s.downsample_factor }
        with ⟨b, v⟩
      rw [h] at this
      simp only at this
      subst this
      rfl
    · rfl
  rcases h : need_sample f s with ⟨b, u⟩
  rw [h] at hn
  simp only at hn
  subst hn
  rw [tick_of_need_sample f i s u m h]

/-- Runs compose. -/
theorem TicksTo.append {f : SndFile} {a b : Nat} {s t u : State}
    (h1 : TicksTo f a s t) (h2 : TicksTo f b t u) : TicksTo f (a + b) s u := by
  induction h2 with
  | refl => exact h1
  | step _ ht ih => exact TicksTo.step (ih h1) ht

/-- One successful iteration is a run of length one. -/
theorem TicksTo.single {f : SndFile} {i : Nat} {s t : State} {m m1 : MpxBuffer}
    (h : tick f i s m = (true, t, m1)) : TicksTo f 1 s t :=
  TicksTo.step (TicksTo.refl s) h

/-- A run keeps the configuration. -/
theorem TicksTo.config {f : SndFile} {n : Nat} {s t : State} (h : TicksTo f n s t) :
    SameConfig s t := by
  induction h with
  | refl => exact SameConfig.rfl_ _
  | @step n s t u i m m1 _ ht ih =>
    have := tick_config f i t m
    rw [ht] at this
    exact ih.trans_ this

/-- The sample loop returns `0` or `-1`. -/
theorem sample_loop_ret (f : SndFile) (n i : Nat) (s : State) (m : MpxBuffer) :
    (sample_loop f n i s m).1 = 0 ∨ (sample_loop f n i s m).1 = -1 := by
  induction n generalizing i s m with
  | zero => exact Or.inl rfl
  | succ n ih =>
    simp only [sample_loop]
    rcases h : tick f i s m with ⟨b, s1, m1⟩
    cases b
    · exact Or.inr rfl
    · exact ih _ _ _

/-- A sample loop that returns `0` is a run of `n` iterations. -/
theorem sample_loop_ticks (f : SndFile) (n i : Nat) (s : State) (m : MpxBuffer)
    (h : (sample_loop f n i s m).1 = 0) : TicksTo f n s (sample_loop f n i s m).2.1 := by
  induction n generalizing i s m with
  | zero => exact TicksTo.refl s
  | succ n ih =>
    simp only [sample_loop] at h ⊢
    rcases ht : tick f i s m with ⟨b, s1, m1⟩
    rw [ht] at h
    cases b
    · simp at h
    · have h2 := ih (i + 1) s1 m1 h
      have h3 := (TicksTo.single ht).append h2
      rw [Nat.add_comm] at h3
      exact h3

/-- With a reader that never fails, the sample loop returns `0`. -/
theorem sample_loop_ok (f : SndFile) (hr : ∀ k, 0 ≤ f.read_count k)
    (hs : ∀ k, 0 ≤ f.seek_result k) (n i : Nat) (s : State) (m : MpxBuffer) :
    (sample_loop f n i s m).1 = 0 := by
  induction n generalizing i s m with
  | zero => rfl
  | succ n ih =>
    simp only [sample_loop]
    have hk := tick_ok f hr hs i s m
    rcases ht : tick f i s m with ⟨b, s1, m1⟩
    rw [ht] at hk
    simp only at hk
    subst hk
    exact ih _ _ _

/-- With an audio source, a call of `fm_mpx_get_samples` that returns `0` is a run
of `length` iterations. -/
theorem get_samples_ticks (f : SndFile) (rds : Nat → ℚ) (s : State) (m : MpxBuffer)
    (hinf : s.inf = true) (h : (fm_mpx_get_samples f rds s m).1 = 0) :
    TicksTo f s.length s (fm_mpx_get_samples f rds s m).2.1 := by
  simp only [fm_mpx_get_samples, hinf, if_true] at h ⊢
  exact sample_loop_ticks f _ _ _ _ h

/-- With an audio source, successive calls of `fm_mpx_get_samples` that all return
`0` are a run of `length` iterations per call. -/
theorem chunks_ticks (f : SndFile) (rdss : List (Nat → ℚ)) (s : State) (m : MpxBuffer)
    (hinf : s.inf = true) (h : (chunks f rdss s m).1 = 0) :
    TicksTo f (rdss.length * s.length) s (chunks f rdss s m).2.1 := by
  induction rdss generalizing s m with
  | nil => simpa [chunks] using TicksTo.refl s
  | cons rds rest ih =>
    rcases hg : fm_mpx_get_samples f rds s m with ⟨r, s1, m1⟩
    rcases hr : (sample_loop_ret f s.length 0 s
      (fun i => if i < s.length then rds i else m i)) with h0 | h1
    · have hr0 : r = 0 := by
        have := congrArg Prod.fst hg
        simp only [fm_mpx_get_samples, hinf, if_true] at this
        rw [← this]; exact h0
      subst hr0
      have ht : TicksTo f s.length s s1 := by
        have := get_samples_ticks f rds s m hinf (by rw [hg])
        rw [hg] at this
        exact this
      have hc := ht.config
      have hch : chunks f (rds :: rest) s m = chunks f rest s1 m1 := by
        simp [chunks, hg]
      rw [hch] at h ⊢
      have h2 := ih s1 m1 (by rw [hc.inf]; exact hinf) h
      rw [hc.length] at h2
      have h3 := ht.append h2
      have e : s.length + rest.length * s.length = (rds :: rest).length * s.length := by
        rw [List.length_cons, Nat.succ_mul, Nat.add_comm]
      rw [e] at h3
      exact h3
    · have hr1 : r = -1 := by
        have := congrArg Prod.fst hg
        simp only [fm_mpx_get_samples, hinf, if_true] at this
        rw [← this]; exact h1
      subst hr1
      have hch : chunks f (rds :: rest) s m = (-1, s1, m1) := by
        simp [chunks, hg]
      rw [hch] at h
      simp at h

/-- With an audio source and a reader that never fails, successive calls of
`fm_mpx_get_samples` all return `0`. -/
theorem chunks_ok (f : SndFile) (hr : ∀ k, 0 ≤ f.read_count k)
    (hs : ∀ k, 0 ≤ f.seek_result k) (rdss : List (Nat → ℚ)) (s : State) (m : MpxBuffer) :
    (chunks f rdss s m).1 = 0 := by
  induction rdss generalizing s m with
  | nil => rfl
  | cons rds rest ih =>
    have h0 : (fm_mpx_get_samples f rds s m).1 = 0 := by
      simp only [fm_mpx_get_samples]
      split_ifs
      · exact sample_loop_ok f hr hs _ _ _ _
      · rfl
    rcases hg : fm_mpx_get_samples f rds s m with ⟨r, s1, m1⟩
    rw [hg] at h0
    simp only at h0
    subst h0
    have hch : chunks f (rds :: rest) s m = chunks f rest s1 m1 := by
      simp [chunks, hg]
    rw [hch]
    exact ih s1 m1

/-- With a reader that never fails, runs of every length exist. -/
theorem ticks_exist (f : SndFile) (hr : ∀ k, 0 ≤ f.read_count k)
    (hs : ∀ k, 0 ≤ f.seek_result k) (s : State) (n : Nat) : ∃ t, TicksTo f n s t := by
  induction n with
  | zero => exact ⟨s, TicksTo.refl s⟩
  | succ n ih =>
    obtain ⟨t, ht⟩ := ih
    have hk := tick_ok f hr hs 0 t (fun _ => 0)
    rcases hq : tick f 0 t (fun _ => 0) with ⟨b, u, m1⟩
    rw [hq] at hk
    simp only at hk
    subst hk
    exact ⟨u, TicksTo.step ht hq⟩


/-- The position and the number of frames pushed across a successful iteration. -/
theorem tick_pos_hist (f : SndFile) (i : Nat) (s t : State) (m m1 : MpxBuffer)
    (h : tick f i s m = (true, t, m1)) :
    (s.downsample_factor ≤ s.audio_pos →
      t.audio_pos = s.audio_pos - s.downsample_factor + 1 ∧
      t.hist_left.length = s.hist_left.length + 1) ∧
    (s.audio_pos < s.downsample_factor →
      t.audio_pos = s.audio_pos + 1 ∧ t.hist_left = s.hist_left) := by
  obtain ⟨u, hu, rfl⟩ := tick_inv f i s t m m1 h
  obtain ⟨h1, h2⟩ := need_sample_inv f s u hu
  constructor
  · intro hp
    obtain ⟨hpos, v, hv, rfl⟩ := h1 hp
    have hfr := next_frame_frame f { s with audio_pos := s.audio_pos - s.downsample_factor }
    rw [hv] at hfr
    refine ⟨by simpa using hpos, ?_⟩
    have : v.hist_left = s.hist_left := hfr.2.2.2.2.2.2.2.1
    simp [this]
  · intro hp
    have := h2 hp
    subst this
    exact ⟨by simp, by simp⟩

/-! ## C6: unit resampling factor -/

/-- C6.  With `downsample_factor = 1` and `audio_pos = downsample_factor` as
`fm_mpx_open` sets it, after any `n` iterations of the sample loop exactly `n`
more frames have been pushed into the ring buffer and `audio_pos` has its initial
value; and with a reader that never fails, any number of successive calls of
`fm_mpx_get_samples` return `0`, push `length` frames per call and leave
`audio_pos` at its initial value. -/
theorem C6_unit_factor_no_drift (f : SndFile) (s : State)
    (hd : s.downsample_factor = 1) (hp : s.audio_pos = s.downsample_factor) :
    (∀ (n : Nat) (t : State), TicksTo f n s t →
      t.hist_left.length = s.hist_left.length + n ∧ t.audio_pos = s.audio_pos) ∧
    ((∀ k, 0 ≤ f.read_count k) → (∀ k, 0 ≤ f.seek_result k) → s.inf = true →
      ∀ (rdss : List (Nat → ℚ)) (m : MpxBuffer),
        (chunks f rdss s m).1 = 0 ∧
        (chunks f rdss s m).2.1.hist_left.length =
          s.hist_left.length + rdss.length * s.length ∧
        (chunks f rdss s m).2.1.audio_pos = s.audio_pos) := by
  have key : ∀ (n : Nat) (t : State), TicksTo f n s t →
      t.hist_left.length = s.hist_left.length + n ∧ t.audio_pos = s.audio_pos := by
    intro n t ht
    induction ht with
    | refl => exact ⟨rfl, rfl⟩
    | @step n s t u i m m1 hst htu ih =>
      obtain ⟨ihl, ihp⟩ := ih hd hp
      have hc := hst.config
      have hge : t.downsample_factor ≤ t.audio_pos := by
        rw [ihp, hp, hc.downsample_factor]
      obtain ⟨h1, h2⟩ := (tick_pos_hist f i t u m m1 htu).1 hge
      refine ⟨by rw [h2, ihl]; ring, ?_⟩
      rw [h1, ihp, hc.downsample_factor, hp, hd]
      norm_num
  refine ⟨key, fun hr hs hinf rdss m => ?_⟩
  have h0 := chunks_ok f hr hs rdss s m
  exact ⟨h0, key _ _ (chunks_ticks f rdss s m hinf h0)⟩


/-- Witness of `C6_unit_factor_no_drift`: two chunks of a 228000 Hz mono stream. -/
theorem C6_unit_factor_no_drift_witness :
    (chunks const_mono_file [fun _ => 0, fun _ => 0] opened_mono_1 (fun _ => 0)).1 = 0 ∧
    (chunks const_mono_file [fun _ => 0, fun _ => 0] opened_mono_1
      (fun _ => 0)).2.1.hist_left.length =
      opened_mono_1.hist_left.length +
        [fun (_ : Nat) => (0 : ℚ), fun (_ : Nat) => (0 : ℚ)].length * opened_mono_1.length ∧
    (chunks const_mono_file [fun _ => 0, fun _ => 0] opened_mono_1 (fun _ => 0)).2.1.audio_pos =
      opened_mono_1.audio_pos :=
  (C6_unit_factor_no_drift const_mono_file opened_mono_1
    (by simp [opened_mono_1, fm_mpx_open])
    (by simp [opened_mono_1, fm_mpx_open])).2
    (by simp [const_mono_file]) (by simp [const_mono_file])
    (by simp [opened_mono_1, fm_mpx_open]) [fun _ => 0, fun _ => 0] (fun _ => 0)

/-! ## C7: the sanity checks on the phase index -/

/-- The three cases of the sanity checks. -/
theorem sanity_check_cases (r : Int) :
    (r < 0 → sanity_check r = 0) ∧
    (0 ≤ r → r < FIR_PHASES → sanity_check r = r) ∧
    (FIR_PHASES ≤ r → sanity_check r = FIR_PHASES - 2) := by
  unfold sanity_check FIR_PHASES
  refine ⟨fun h => ?_, fun h1 h2 => ?_, fun h => ?_⟩
  · simp [h]
  · simp [not_lt.mpr h1, not_le.mpr h2]
  · have : ¬ r < 0 := by omega
    simp [this, h]

/-- The 456000 Hz stream at the interpolation point of its second iteration. -/
theorem second_interp_456k_eval :
    second_interp_456k.audio_pos = 1 / 2 ∧ second_interp_456k.downsample_factor = 1 / 2 ∧
    second_interp_456k.hist_left.length = 2 := by
  simp [second_interp_456k, tick, need_sample, next_frame, refill_loop, opened_mono_456k,
    fm_mpx_open, globals0, const_mono_file]
  norm_num

/-- C7, the code at the failing input.  On a 456000 Hz stream the raw phase of the
second iteration is `32 >= FIR_PHASES`, and the sanity check replaces it by
`FIR_PHASES - 2 = 30`, not by `FIR_PHASES - 1 = 31`. -/
theorem C7_high_clamp :
    raw_phase second_interp_456k = 32 ∧
    sanity_check (raw_phase second_interp_456k) = 30 ∧
    sanity_check 32 = 30 ∧ FIR_PHASES - 1 = 31 := by
  have h : raw_phase second_interp_456k = 32 := by
    obtain ⟨h1, h2, -⟩ := second_interp_456k_eval
    simp only [raw_phase, h1, h2, FIR_PHASES, c_int]
    norm_num
  refine ⟨h, ?_, ?_, ?_⟩
  · rw [h]; exact (sanity_check_cases 32).2.2 (by simp [FIR_PHASES])
  · exact (sanity_check_cases 32).2.2 (by simp [FIR_PHASES])
  · simp [FIR_PHASES]


/-! ## C8: the position at the interpolation point -/

/-- With a reader that never fails, the fetch block never returns `-1`. -/
theorem need_sample_ok (f : SndFile) (hr : ∀ k, 0 ≤ f.read_count k)
    (hs : ∀ k, 0 ≤ f.seek_result k) (s : State) : (need_sample f s).1 = true := by
  have h := tick_ok f hr hs 0 s (fun _ => 0)
  rcases hn : need_sample f s with ⟨b, u⟩
  cases b
  · rw [tick_of_need_sample_fail f 0 s u _ hn] at h
    simp at h
  · rfl

/-- C8, counterexample.  With `downsample_factor = 1/2` (a 456000 Hz stream, opened
as `fm_mpx_open` does) the first two iterations succeed, and at the interpolation
point of the second one `audio_pos < downsample_factor` fails: a single frame is
fetched per iteration. -/
theorem C8_counterexample :
    0 < opened_mono_456k.downsample_factor ∧
    opened_mono_456k.audio_pos = opened_mono_456k.downsample_factor ∧
    (tick const_mono_file 0 opened_mono_456k (fun _ => 0)).1 = true ∧
    (need_sample const_mono_file
      (tick const_mono_file 0 opened_mono_456k (fun _ => 0)).2.1).1 = true ∧
    ¬ (second_interp_456k.audio_pos < second_interp_456k.downsample_factor) := by
  refine ⟨?_, ?_, ?_, ?_, ?_⟩
  · simp [opened_mono_456k, fm_mpx_open]
  · simp [opened_mono_456k, fm_mpx_open]
  · exact tick_ok const_mono_file (by simp [const_mono_file]) (by simp [const_mono_file]) _ _ _
  · exact need_sample_ok const_mono_file (by simp [const_mono_file])
      (by simp [const_mono_file]) _
  · obtain ⟨h1, h2, -⟩ := second_interp_456k_eval
    rw [h1, h2]
    norm_num

/-- C8, as amended.  For every `downsample_factor >= 1`, from `audio_pos =
downsample_factor`, after any number of iterations: when the fetch block of the
next iteration succeeds, `0 <= audio_pos < downsample_factor` holds at the
interpolation point, exactly one frame was pushed if `audio_pos >=
downsample_factor` held at the start of the iteration and the state is unchanged
otherwise; and the fetch block succeeds whenever the reader never fails. -/
theorem C8_position_below_factor (f : SndFile) (s : State)
    (hd : 1 ≤ s.downsample_factor) (hp : s.audio_pos = s.downsample_factor)
    (n : Nat) (t : State) (ht : TicksTo f n s t) :
    ((need_sample f t).1 = true →
      0 ≤ (need_sample f t).2.audio_pos ∧
      (need_sample f t).2.audio_pos < (need_sample f t).2.downsample_factor ∧
      (t.downsample_factor ≤ t.audio_pos →
        (need_sample f t).2.hist_left.length = t.hist_left.length + 1) ∧
      (t.audio_pos < t.downsample_factor → (need_sample f t).2 = t)) ∧
    ((∀ k, 0 ≤ f.read_count k) → (∀ k, 0 ≤ f.seek_result k) →
      (need_sample f t).1 = true) := by
  have inv : 0 ≤ t.audio_pos ∧ t.audio_pos < t.downsample_factor + 1 := by
    induction ht with
    | refl => exact ⟨by rw [hp]; linarith, by rw [hp]; linarith⟩
    | @step n s t v i m m1 hst htv ih =>
      obtain ⟨i0, i1⟩ := ih hd hp
      have hc := hst.config
      have hcv : v.downsample_factor = t.downsample_factor := by
        have := tick_config f i t m
        rw [htv] at this
        exact this.downsample_factor
      have hdt : 1 ≤ t.downsample_factor := by rw [hc.downsample_factor]; exact hd
      obtain ⟨h1, h2⟩ := tick_pos_hist f i t v m m1 htv
      rcases le_or_lt t.downsample_factor t.audio_pos with hge | hlt
      · obtain ⟨e, -⟩ := h1 hge
        rw [e, hcv]
        constructor <;> linarith
      · obtain ⟨e, -⟩ := h2 hlt
        rw [e, hcv]
        constructor <;> linarith
  refine ⟨fun hok => ?_, fun hr hs => need_sample_ok f hr hs t⟩
  have hu : need_sample f t = (true, (need_sample f t).2) := Prod.ext hok rfl
  generalize (need_sample f t).2 = u at hu ⊢
  have hdt : 1 ≤ t.downsample_factor := by rw [ht.config.downsample_factor]; exact hd
  have hcu : u.downsample_factor = t.downsample_factor := by
    have := (need_sample_frame f t).1
    rw [hu] at this
    exact this.downsample_factor
  obtain ⟨h1, h2⟩ := need_sample_inv f t u hu
  obtain ⟨i0, i1⟩ := inv
  have hlen : t.downsample_factor ≤ t.audio_pos →
      u.hist_left.length = t.hist_left.length + 1 := by
    intro hge
    obtain ⟨-, v, hv, rfl⟩ := h1 hge
    have hfr := next_frame_frame f { t with audio_pos := t.audio_pos - t.downsample_factor }
    rw [hv] at hfr
    have : v.hist_left = t.hist_left := hfr.2.2.2.2.2.2.2.1
    simp [this]
  rcases le_or_lt t.downsample_factor t.audio_pos with hge | hlt
  · obtain ⟨e, -⟩ := h1 hge
    refine ⟨?_, ?_, hlen, h2⟩
    · rw [e]; linarith
    · rw [e, hcu]; linarith
  · have e := h2 hlt
    refine ⟨?_, ?_, hlen, h2⟩
    · rw [e]; exact i0
    · rw [e]; exact hlt

/-- Witness of `C8_position_below_factor` on a 44100 Hz mono stream. -/
theorem C8_position_below_factor_witness :
    0 ≤ (need_sample const_mono_file
      (fm_mpx_open (some (some ⟨44100, 1⟩)) 1 (fun _ _ _ => 0) true globals0).2).2.audio_pos ∧
    (need_sample const_mono_file
      (fm_mpx_open (some (some ⟨44100, 1⟩)) 1 (fun _ _ _ => 0) true globals0).2).2.audio_pos <
    (need_sample const_mono_file
      (fm_mpx_open (some (some ⟨44100, 1⟩)) 1 (fun _ _ _ => 0) true globals0).2).2.downsample_factor := by
  have h := C8_position_below_factor const_mono_file
    (fm_mpx_open (some (some ⟨44100, 1⟩)) 1 (fun _ _ _ => 0) true globals0).2
    (by simp [fm_mpx_open]; norm_num) (by simp [fm_mpx_open]) 0 _ (TicksTo.refl _)
  have h2 := h.1 (h.2 (by simp [const_mono_file]) (by simp [const_mono_file]))
  exact ⟨h2.1, h2.2.1⟩

/-! ## C9: the carrier phases -/

/-- The carrier phases across a successful stereo iteration. -/
theorem tick_phases (f : SndFile) (i : Nat) (s t : State) (m m1 : MpxBuffer)
    (hch : s.channels > 1) (h : tick f i s m = (true, t, m1)) :
    t.phase_19 = (if s.phase_19 + 1 ≥ 12 then 0 else s.phase_19 + 1) ∧
    t.phase_38 = (if s.phase_38 + 1 ≥ 6 then 0 else s.phase_38 + 1) := by
  obtain ⟨u, hu, rfl⟩ := tick_inv f i s t m m1 h
  have hf := need_sample_frame f s
  rw [hu] at hf
  obtain ⟨hc, h19, h38⟩ := hf
  simp only at h19 h38
  have hch' : u.channels > 1 := by rw [hc.channels]; exact hch
  simp only [stereo_mpx, hch', if_true, h19, h38, and_self]

/-- After `n` stereo iterations from zero phases, `phase_19 = n mod 12` and
`phase_38 = n mod 6`. -/
theorem phases_after (f : SndFile) (s : State) (hch : s.channels > 1)
    (h19 : s.phase_19 = 0) (h38 : s.phase_38 = 0) (n : Nat) (t : State)
    (ht : TicksTo f n s t) :
    t.phase_19 = (n : Int) % 12 ∧ t.phase_38 = (n : Int) % 6 := by
  induction ht with
  | refl => simp [h19, h38]
  | @step n s t u i m m1 hst htu ih =>
    obtain ⟨i19, i38⟩ := ih hch h19 h38
    have hct : t.channels > 1 := by rw [hst.config.channels]; exact hch
    obtain ⟨e19, e38⟩ := tick_phases f i t u m m1 hct htu
    rw [e19, e38, i19, i38]
    push_cast
    constructor <;> split_ifs <;> omega

/-- C9.  In stereo, from `phase_19 = phase_38 = 0`, after any `n` iterations
`phase_19 = n mod 12`, `phase_38 = n mod 6` and `phase_38 = phase_19 mod 6`; the
value of `phase_19` recurs after `p` more iterations exactly when `12` divides
`p`; and with a reader that never fails every value `v < 12` is taken by
`phase_19`, after `v` iterations. -/
theorem C9_carrier_phase_lockstep (f : SndFile) (s : State) (hch : s.channels > 1)
    (h19 : s.phase_19 = 0) (h38 : s.phase_38 = 0) :
    (∀ (n : Nat) (t : State), TicksTo f n s t →
      t.phase_19 = (n : Int) % 12 ∧ t.phase_38 = (n : Int) % 6 ∧
      t.phase_38 = t.phase_19 % 6) ∧
    (∀ (n p : Nat) (t t' : State), TicksTo f n s t → TicksTo f (n + p) s t' →
      (t'.phase_19 = t.phase_19 ↔ 12 ∣ p)) ∧
    ((∀ k, 0 ≤ f.read_count k) → (∀ k, 0 ≤ f.seek_result k) →
      ∀ v : Nat, v < 12 → ∃ t, TicksTo f v s t ∧ t.phase_19 = (v : Int)) := by
  refine ⟨fun n t ht => ?_, fun n p t t' ht ht' => ?_, fun hr hs v hv => ?_⟩
  · obtain ⟨a, b⟩ := phases_after f s hch h19 h38 n t ht
    refine ⟨a, b, ?_⟩
    rw [a, b]; omega
  · obtain ⟨a, -⟩ := phases_after f s hch h19 h38 n t ht
    obtain ⟨a', -⟩ := phases_after f s hch h19 h38 (n + p) t' ht'
    rw [a, a']
    push_cast
    constructor
    · intro h; omega
    · intro h; omega
  · obtain ⟨t, ht⟩ := ticks_exist f hr hs s v
    refine ⟨t, ht, ?_⟩
    rw [(phases_after f s hch h19 h38 v t ht).1]
    omega

/-- Witness of `C9_carrier_phase_lockstep` on the constant stereo stream. -/
theorem C9_carrier_phase_lockstep_witness :
    ∃ t, TicksTo const_stereo_file 7 opened_stereo_1 t ∧ t.phase_19 = 7 :=
  (C9_carrier_phase_lockstep const_stereo_file opened_stereo_1
    (by simp [opened_stereo_1, fm_mpx_open])
    (by simp [opened_stereo_1, fm_mpx_open, globals0])
    (by simp [opened_stereo_1, fm_mpx_open, globals0])).2.2
    (by simp [const_stereo_file]) (by simp [const_stereo_file]) 7 (by norm_num)


/-! ## C10: the ring buffer holds the most recent samples -/

/-- The mask `& (FIR_SIZE-1)` against `2^10 - 1`, on a natural number complement. -/
theorem ldiff_mask (m : Nat) : Nat.ldiff 1023 m = 1023 - m % 1024 := by
  apply Nat.eq_of_testBit_eq
  intro i
  have h1 : (1023 : Nat) = 2 ^ 10 - 1 := by norm_num
  have h2 : 1023 - m % 1024 = 2 ^ 10 - (m % 2 ^ 10 + 1) := by
    have : m % 1024 < 1024 := Nat.mod_lt _ (by norm_num)
    norm_num
    omega
  rw [Nat.testBit_ldiff, h2, Nat.testBit_two_pow_sub_succ (Nat.mod_lt _ (by norm_num)), h1,
    Nat.testBit_two_pow_sub_one, Nat.testBit_mod_two_pow]
  by_cases h : i < 10 <;> simp [h]

/-- On two's complement integers `x & 1023` is `x mod 1024`. -/
theorem land_mask (x : Int) : Int.land x 1023 = x % 1024 := by
  cases x with
  | ofNat m =>
    show ((m &&& 1023 : Nat) : Int) = (m : Int) % 1024
    have := Nat.and_pow_two_sub_one_eq_mod m 10
    norm_num at this
    rw [this]
    norm_cast
  | negSucc m =>
    show ((Nat.ldiff 1023 m : Nat) : Int) = Int.negSucc m % 1024
    rw [ldiff_mask]
    have : m % 1024 < 1024 := Nat.mod_lt _ (by norm_num)
    rw [Int.negSucc_eq]
    omega

/-- The slot read for tap `fi` is `(fir_index - fi) mod 1024`. -/
theorem ring_slot_eq (idx fi : Int) : ring_slot idx fi = (idx - fi) % 1024 := by
  unfold ring_slot FIR_SIZE
  exact land_mask _

/-- A zeroed ring buffer with `fir_index = 0` holds the empty history. -/
theorem RingHolds.init (buf : Int → ℚ) (h : ∀ p : Int, 0 ≤ p → p < FIR_SIZE → buf p = 0) :
    RingHolds buf 0 [] := by
  refine ⟨by simp, fun j _ => ?_⟩
  simp only [List.getD_nil]
  apply h
  · exact Int.emod_nonneg _ (by simp [FIR_SIZE])
  · exact Int.emod_lt_of_pos _ (by simp [FIR_SIZE])

/-- Pushing a sample as lines 216-219 do keeps the ring buffer in step with the
history. -/
theorem RingHolds.push {buf : Int → ℚ} {idx : Int} {hist : List ℚ} (x : ℚ)
    (h : RingHolds buf idx hist) :
    RingHolds (Function.update buf (if idx + 1 ≥ FIR_SIZE then 0 else idx + 1) x)
      (if idx + 1 ≥ FIR_SIZE then 0 else idx + 1) (x :: hist) := by
  obtain ⟨hidx, hbuf⟩ := h
  unfold RingHolds
  unfold FIR_SIZE at hidx hbuf ⊢
  have hnew : (if idx + 1 ≥ 1024 then 0 else idx + 1) = ((hist.length : Int) + 1) % 1024 := by
    split_ifs <;> omega
  rw [hnew]
  simp only [List.length_cons]
  push_cast
  refine ⟨rfl, fun j hj => ?_⟩
  cases j with
  | zero =>
    push_cast
    rw [sub_zero, Function.update_same]
    rfl
  | succ j =>
    push_cast at hj ⊢
    have hne : ((hist.length : Int) + 1 - ((j : Int) + 1)) % 1024 ≠
        ((hist.length : Int) + 1) % 1024 := by omega
    rw [Function.update_noteq hne]
    have hslot : (hist.length : Int) + 1 - ((j : Int) + 1) = (hist.length : Int) - (j : Int) := by
      ring
    rw [hslot, hbuf j (by omega)]
    simp

/-- What the convolution reads from a ring buffer that holds `hist`. -/
theorem RingHolds.read {buf : Int → ℚ} {idx : Int} {hist : List ℚ}
    (h : RingHolds buf idx hist) (fi : Nat) (hfi : (fi : Int) < FIR_SIZE) :
    buf (ring_slot idx fi) = hist.getD fi 0 := by
  obtain ⟨hidx, hbuf⟩ := h
  rw [ring_slot_eq, ← hbuf fi hfi, hidx]
  unfold FIR_SIZE
  congr 1
  omega


/-- The new `fir_index` after a push. -/
theorem store_sample_fir_index (s : State) :
    (store_sample s).fir_index = (if s.fir_index + 1 ≥ FIR_SIZE then 0 else s.fir_index + 1) := by
  unfold store_sample; split_ifs <;> rfl

/-- The left ring buffer after a push. -/
theorem store_sample_fir_buffer_left (s : State) :
    (store_sample s).fir_buffer_left =
      Function.update s.fir_buffer_left
        (if s.fir_index + 1 ≥ FIR_SIZE then 0 else s.fir_index + 1)
        (s.audio_buffer s.audio_index) := by
  unfold store_sample; split_ifs <;> rfl

/-- The right ring buffer after a push, in stereo. -/
theorem store_sample_fir_buffer_right (s : State) (hch : s.channels > 1) :
    (store_sample s).fir_buffer_right =
      Function.update s.fir_buffer_right
        (if s.fir_index + 1 ≥ FIR_SIZE then 0 else s.fir_index + 1)
        (s.audio_buffer (s.audio_index + 1)) := by
  unfold store_sample; split_ifs <;> rfl

/-- The history of the right channel after a push, in stereo. -/
theorem store_sample_hist_right (s : State) (hch : s.channels > 1) :
    (store_sample s).hist_right = s.audio_buffer (s.audio_index + 1) :: s.hist_right := by
  unfold store_sample; split_ifs <;> rfl

/-- A push keeps the ring buffers in step with the histories. -/
theorem store_sample_ring (v : State)
    (hl : RingHolds v.fir_buffer_left v.fir_index v.hist_left)
    (hr : v.channels > 1 → RingHolds v.fir_buffer_right v.fir_index v.hist_right) :
    RingHolds (store_sample v).fir_buffer_left (store_sample v).fir_index
      (store_sample v).hist_left ∧
    ((store_sample v).channels > 1 →
      RingHolds (store_sample v).fir_buffer_right (store_sample v).fir_index
        (store_sample v).hist_right) := by
  rw [store_sample_fir_index, store_sample_fir_buffer_left, store_sample_hist_left]
  refine ⟨hl.push _, fun hch => ?_⟩
  rw [store_sample_channels] at hch
  rw [store_sample_fir_buffer_right v hch, store_sample_hist_right v hch]
  exact (hr hch).push _

/-- The fetch block keeps the ring buffers in step with the histories. -/
theorem need_sample_ring (f : SndFile) (s u : State) (h : need_sample f s = (true, u))
    (hl : RingHolds s.fir_buffer_left s.fir_index s.hist_left)
    (hr : s.channels > 1 → RingHolds s.fir_buffer_right s.fir_index s.hist_right) :
    RingHolds u.fir_buffer_left u.fir_index u.hist_left ∧
    (u.channels > 1 → RingHolds u.fir_buffer_right u.fir_index u.hist_right) := by
  obtain ⟨h1, h2⟩ := need_sample_inv f s u h
  rcases le_or_lt s.downsample_factor s.audio_pos with hge | hlt
  · obtain ⟨-, v, hv, rfl⟩ := h1 hge
    have hfr := next_frame_frame f { s with audio_pos := s.audio_pos - s.downsample_factor }
    rw [hv] at hfr
    obtain ⟨hc, -, -, -, e1, e2, e3, e4, e5⟩ := hfr
    simp only at e1 e2 e3 e4 e5
    apply store_sample_ring
    · rw [e1, e2, e4]; exact hl
    · intro hch
      rw [e1, e3, e5]
      exact hr (by rw [← hc.channels]; exact hch)
  · rw [h2 hlt]; exact ⟨hl, hr⟩

/-- An iteration keeps the ring buffers in step with the histories. -/
theorem tick_ring (f : SndFile) (i : Nat) (s t : State) (m m1 : MpxBuffer)
    (h : tick f i s m = (true, t, m1))
    (hl : RingHolds s.fir_buffer_left s.fir_index s.hist_left)
    (hr : s.channels > 1 → RingHolds s.fir_buffer_right s.fir_index s.hist_right) :
    RingHolds t.fir_buffer_left t.fir_index t.hist_left ∧
    (t.channels > 1 → RingHolds t.fir_buffer_right t.fir_index t.hist_right) := by
  obtain ⟨u, hu, rfl⟩ := tick_inv f i s t m m1 h
  have := need_sample_ring f s u hu hl hr
  simpa using this

/-- Every run from a state with zeroed ring buffers and `fir_index = 0` keeps the
ring buffers in step with the histories. -/
theorem ticks_ring (f : SndFile) (s : State) (hidx : s.fir_index = 0)
    (hl : ∀ p : Int, 0 ≤ p → p < FIR_SIZE → s.fir_buffer_left p = 0)
    (hr : ∀ p : Int, 0 ≤ p → p < FIR_SIZE → s.fir_buffer_right p = 0)
    (hhl : s.hist_left = []) (hhr : s.hist_right = [])
    (n : Nat) (t : State) (ht : TicksTo f n s t) :
    RingHolds t.fir_buffer_left t.fir_index t.hist_left ∧
    (t.channels > 1 → RingHolds t.fir_buffer_right t.fir_index t.hist_right) := by
  induction ht with
  | refl =>
    rw [hidx, hhl, hhr]
    exact ⟨RingHolds.init _ hl, fun _ => RingHolds.init _ hr⟩
  | @step n s t u i m m1 hst htu ih =>
    obtain ⟨a, b⟩ := ih hidx hl hr hhl hhr
    exact tick_ring f i t u m m1 htu a b

/-- The convolution over a ring buffer that holds `hist` is the convolution over
the last `FIR_TAPS` samples of `hist`, newest first, padded with zeros. -/
theorem fir_sum_hist (coef buf : Int → ℚ) (iphase idx : Int) (hist : List ℚ)
    (h : RingHolds buf idx hist) :
    fir_sum coef buf iphase idx =
      (List.range 32).foldl
        (fun (acc : ℚ) (fi : Nat) =>
          acc + coef (iphase + FIR_PHASES * (fi : Int)) * hist.getD fi 0) 0 := by
  unfold fir_sum
  have e : FIR_TAPS.toNat = 32 := by decide
  rw [e]
  apply List.foldl_ext
  intro acc fi hfi
  rw [List.mem_range] at hfi
  rw [h.read fi (by unfold FIR_SIZE; omega)]

/-- In stereo a push adds one sample to each history. -/
theorem need_sample_hist_len (f : SndFile) (s u : State) (h : need_sample f s = (true, u))
    (hlen : s.channels > 1 → s.hist_right.length = s.hist_left.length) :
    u.channels > 1 → u.hist_right.length = u.hist_left.length := by
  obtain ⟨h1, h2⟩ := need_sample_inv f s u h
  rcases le_or_lt s.downsample_factor s.audio_pos with hge | hlt
  · obtain ⟨-, v, hv, rfl⟩ := h1 hge
    have hfr := next_frame_frame f { s with audio_pos := s.audio_pos - s.downsample_factor }
    rw [hv] at hfr
    obtain ⟨hc, -, -, -, -, -, -, e4, e5⟩ := hfr
    simp only at e4 e5
    intro hch
    rw [store_sample_channels] at hch
    rw [store_sample_hist_right v hch, store_sample_hist_left, List.length_cons,
      List.length_cons, e4, e5, hlen (by rw [← hc.channels]; exact hch)]
  · rw [h2 hlt]; exact hlen

/-- In stereo the two histories have the same length along every run that starts
with empty histories. -/
theorem ticks_hist_len (f : SndFile) (s : State)
    (hhl : s.hist_left = []) (hhr : s.hist_right = [])
    (n : Nat) (t : State) (ht : TicksTo f n s t) :
    t.channels > 1 → t.hist_right.length = t.hist_left.length := by
  induction ht with
  | refl => intro _; rw [hhl, hhr]
  | @step n s t v i m m1 hst htv ih =>
    obtain ⟨u, hu, rfl⟩ := tick_inv f i t v m m1 htv
    have := need_sample_hist_len f t u hu (ih hhl hhr)
    simpa using this

/-- C10.  From a state with zeroed ring buffers, `fir_index = 0` and no frame
pushed yet (as after `fm_mpx_open`), in every state `u` reached by any number of
iterations, and at the interpolation point of the next iteration, with `k` the
number of frames pushed so far: for every tap `fi < FIR_TAPS` the slot
`(fir_index - fi) & (FIR_SIZE-1)` of the left ring buffer holds the sample pushed
`fi` frames before the newest one when `fi < k`, and `0` when `fi >= k`; the same
holds of the right ring buffer in stereo; hence the convolution is the sum over
the 32 most recent samples, newest first, padded with zeros. -/
theorem C10_ring_history (f : SndFile) (s : State) (hidx : s.fir_index = 0)
    (hl : ∀ p : Int, 0 ≤ p → p < FIR_SIZE → s.fir_buffer_left p = 0)
    (hr : ∀ p : Int, 0 ≤ p → p < FIR_SIZE → s.fir_buffer_right p = 0)
    (hhl : s.hist_left = []) (hhr : s.hist_right = [])
    (n : Nat) (t u : State) (ht : TicksTo f n s t)
    (hu : u = t ∨ need_sample f t = (true, u)) :
    (∀ fi : Nat, (fi : Int) < FIR_TAPS →
      u.fir_buffer_left (ring_slot u.fir_index fi) = u.hist_left.getD fi 0 ∧
      (∀ x : ℚ, u.hist_left[fi]? = some x →
        u.fir_buffer_left (ring_slot u.fir_index fi) = x) ∧
      (u.hist_left.length ≤ fi → u.fir_buffer_left (ring_slot u.fir_index fi) = 0) ∧
      (u.channels > 1 →
        u.fir_buffer_right (ring_slot u.fir_index fi) = u.hist_right.getD fi 0 ∧
        u.hist_right.length = u.hist_left.length)) ∧
    out_left u =
      (List.range 32).foldl
        (fun (acc : ℚ) (fi : Nat) =>
          acc + u.low_pass_fir (sanity_check (raw_phase u) + FIR_PHASES * (fi : Int)) *
            u.hist_left.getD fi 0) 0 := by
  have ht_ring := ticks_ring f s hidx hl hr hhl hhr n t ht
  have ht_len := ticks_hist_len f s hhl hhr n t ht
  have hu_all : RingHolds u.fir_buffer_left u.fir_index u.hist_left ∧
      (u.channels > 1 → RingHolds u.fir_buffer_right u.fir_index u.hist_right) ∧
      (u.channels > 1 → u.hist_right.length = u.hist_left.length) := by
    rcases hu with rfl | hu
    · exact ⟨ht_ring.1, ht_ring.2, ht_len⟩
    · have := need_sample_ring f t u hu ht_ring.1 ht_ring.2
      exact ⟨this.1, this.2, need_sample_hist_len f t u hu ht_len⟩
  obtain ⟨hL, hR, hlen⟩ := hu_all
  refine ⟨fun fi hfi => ?_, fir_sum_hist _ _ _ _ _ hL⟩
  have hfi' : (fi : Int) < FIR_SIZE := by
    have : FIR_TAPS = 32 := by decide
    rw [this] at hfi
    unfold FIR_SIZE
    omega
  have e := hL.read fi hfi'
  refine ⟨e, fun x hx => ?_, fun hk => ?_, fun hch => ⟨(hR hch).read fi hfi', hlen hch⟩⟩
  · rw [e, List.getD_eq_getElem?_getD, hx]; rfl
  · rw [e, List.getD_eq_default _ _ hk]

/-- Witness of `C10_ring_history`: after the first iteration on the constant mono
stream one frame, of value 2, has been pushed and tap 0 reads it. -/
theorem C10_ring_history_witness :
    (tick const_mono_file 0 opened_mono_1 (fun _ => 0)).2.1.hist_left = [2] ∧
    (tick const_mono_file 0 opened_mono_1 (fun _ => 0)).2.1.fir_buffer_left
      (ring_slot (tick const_mono_file 0 opened_mono_1 (fun _ => 0)).2.1.fir_index
        ((0 : Nat) : Int)) =
      (tick const_mono_file 0 opened_mono_1 (fun _ => 0)).2.1.hist_left.getD 0 0 :=
  ⟨by simp [tick, need_sample, next_frame, refill_loop, opened_mono_1, fm_mpx_open, globals0,
      const_mono_file],
   ((C10_ring_history const_mono_file opened_mono_1
    (by simp [opened_mono_1, fm_mpx_open, globals0])
    (by simp [opened_mono_1, fm_mpx_open, globals0])
    (by simp [opened_mono_1, fm_mpx_open, globals0])
    (by simp [opened_mono_1, fm_mpx_open, globals0])
    (by simp [opened_mono_1, fm_mpx_open, globals0])
    1 _ _
    (TicksTo.single (Prod.ext
      (tick_ok const_mono_file (by simp [const_mono_file]) (by simp [const_mono_file])
        0 opened_mono_1 (fun _ => 0)) rfl))
    (Or.inl rfl)).1 0 (by decide)).1⟩

/-! ## C11: no audio source -/

/-- C11.  After `fm_mpx_open` with no filename, `fm_mpx_get_samples` returns `0`,
the first `length` slots of the output buffer hold exactly what `get_rds_samples`
wrote, the other slots are untouched, and the whole state (resampler position,
ring buffers, decode cursor, carrier phases, calls made to the audio library) is
the one left by `fm_mpx_open`. -/
theorem C11_no_audio_source (f : SndFile) (rds : Nat → ℚ) (len : Nat)
    (design : ℚ → Int → Int → ℚ) (alloc_ok : Bool) (g : State) (m : MpxBuffer) :
    (fm_mpx_open none len design alloc_ok g).1 = 0 ∧
    (fm_mpx_open none len design alloc_ok g).2.inf = false ∧
    (fm_mpx_get_samples f rds (fm_mpx_open none len design alloc_ok g).2 m).1 = 0 ∧
    (fm_mpx_get_samples f rds (fm_mpx_open none len design alloc_ok g).2 m).2.1 =
      (fm_mpx_open none len design alloc_ok g).2 ∧
    (∀ i : Nat, i < len →
      (fm_mpx_get_samples f rds (fm_mpx_open none len design alloc_ok g).2 m).2.2 i = rds i) ∧
    (∀ i : Nat, len ≤ i →
      (fm_mpx_get_samples f rds (fm_mpx_open none len design alloc_ok g).2 m).2.2 i = m i) ∧
    (fm_mpx_open none len design alloc_ok g).2 = { g with length := len, inf := false } := by
  refine ⟨rfl, rfl, ?_, ?_, ?_, ?_, rfl⟩
  · simp [fm_mpx_get_samples, fm_mpx_open]
  · simp [fm_mpx_get_samples, fm_mpx_open]
  · intro i hi
    simp [fm_mpx_get_samples, fm_mpx_open, hi]
  · intro i hi
    simp [fm_mpx_get_samples, fm_mpx_open, not_lt.mpr hi]

/-- Witness of `C11_no_audio_source`: three RDS samples, no audio. -/
theorem C11_no_audio_source_witness :
    (fm_mpx_get_samples empty_file (fun i => (i : ℚ) + 1)
      (fm_mpx_open none 3 (fun _ _ _ => 0) true globals0).2 (fun _ => 0)).2.2 2 = 3 := by
  have h := (C11_no_audio_source empty_file (fun i => (i : ℚ) + 1) 3 (fun _ _ _ => 0) true
    globals0 (fun _ => 0)).2.2.2.2.1 2 (by norm_num)
  rw [h]; norm_num

/-! ## C12: errors during a refill -/

/-- The refill loop with `n` iterations left makes at most `n` reads and `n`
seeks, and never undoes one. -/
theorem refill_loop_counts (f : SndFile) (n : Nat) (s : State) :
    s.nreads ≤ (refill_loop f n s).2.nreads ∧
    (refill_loop f n s).2.nreads ≤ s.nreads + n ∧
    s.nseeks ≤ (refill_loop f n s).2.nseeks ∧
    (refill_loop f n s).2.nseeks ≤ s.nseeks + n := by
  induction n generalizing s with
  | zero => simp [refill_loop]
  | succ n ih =>
    simp only [refill_loop]
    split_ifs
    · simp
    · simp
    · obtain ⟨a, b, c, d⟩ := ih { s with
          audio_len := f.read_count s.nreads
          audio_buffer := fun p =>
            if 0 ≤ p ∧ p < f.read_count s.nreads then f.read_data s.nreads p
            else s.audio_buffer p
          nreads := s.nreads + 1
          nseeks := s.nseeks + 1 }
      simp only at a b c d
      refine ⟨?_, ?_, ?_, ?_⟩ <;> omega
    · simp

/-- The refill loop of the program makes at least one read. -/
theorem refill_loop_reads (f : SndFile) (s : State) :
    s.nreads + 1 ≤ (refill_loop f 2 s).2.nreads := by
  simp only [refill_loop]
  split_ifs <;> simp

/-- The calls made across one iteration of the sample loop. -/
theorem tick_counts (f : SndFile) (i : Nat) (s : State) (m : MpxBuffer) :
    s.nreads ≤ (tick f i s m).2.1.nreads ∧ (tick f i s m).2.1.nreads ≤ s.nreads + 2 ∧
    s.nseeks ≤ (tick f i s m).2.1.nseeks ∧ (tick f i s m).2.1.nseeks ≤ s.nseeks + 2 := by
  have key : s.nreads ≤ (need_sample f s).2.nreads ∧
      (need_sample f s).2.nreads ≤ s.nreads + 2 ∧
      s.nseeks ≤ (need_sample f s).2.nseeks ∧
      (need_sample f s).2.nseeks ≤ s.nseeks + 2 := by
    unfold need_sample
    split_ifs
    · have hn : s.nreads ≤
          (next_frame f { s with audio_pos := s.audio_pos - s.downsample_factor }).2.nreads ∧
          (next_frame f { s with audio_pos := s.audio_pos - s.downsample_factor }).2.nreads
            ≤ s.nreads + 2 ∧
          s.nseeks ≤
          (next_frame f { s with audio_pos := s.audio_pos - s.downsample_factor }).2.nseeks ∧
          (next_frame f { s with audio_pos := s.audio_pos - s.downsample_factor }).2.nseeks
            ≤ s.nseeks + 2 := by
        unfold next_frame
        split_ifs
        · have h := refill_loop_counts f 2
            { s with audio_pos := s.audio_pos - s.downsample_factor }
          rcases hr : refill_loop f 2 { s with audio_pos := s.audio_pos - s.downsample_factor }
            with ⟨b, v⟩
          rw [hr] at h
          cases b <;> exact h
        · simp
      rcases hr : next_frame f { s with audio_pos := s.audio_pos - s.downsample_factor }
        with ⟨b, v⟩
      rw [hr] at hn
      cases b
      · exact hn
      · simpa using hn
    · simp
  rcases hr : need_sample f s with ⟨b, u⟩
  rw [hr] at key
  cases b
  · rw [tick_of_need_sample_fail f i s u m hr]; exact key
  · rw [tick_of_need_sample f i s u m hr]; simpa using key

/-- With a reader that does not fail from the current call counts on, the refill
loop does not return `-1`. -/
theorem refill_loop_ok_from (f : SndFile) (n : Nat) (s : State)
    (hr : ∀ k, s.nreads ≤ k → 0 ≤ f.read_count k)
    (hs : ∀ k, s.nseeks ≤ k → 0 ≤ f.seek_result k) :
    (refill_loop f n s).1 = true := by
  induction n generalizing s with
  | zero => rfl
  | succ n ih =>
    simp only [refill_loop]
    rw [if_neg (not_lt.mpr (hr _ le_rfl))]
    split_ifs with h1 h2
    · exact absurd h2 (not_lt.mpr (hs _ le_rfl))
    · exact ih _ (fun k hk => hr k (Nat.le_of_succ_le hk))
        (fun k hk => hs k (Nat.le_of_succ_le hk))
    · rfl

/-- With a reader that does not fail from the current call counts on, an
iteration does not return `-1`. -/
theorem tick_ok_from (f : SndFile) (i : Nat) (s : State) (m : MpxBuffer)
    (hr : ∀ k, s.nreads ≤ k → 0 ≤ f.read_count k)
    (hs : ∀ k, s.nseeks ≤ k → 0 ≤ f.seek_result k) :
    (tick f i s m).1 = true := by
  have hn : (need_sample f s).1 = true := by
    unfold need_sample
    split_ifs
    · have : (next_frame f { s with audio_pos := s.audio_pos - s.downsample_factor }).1
          = true := by
        unfold next_frame
        split_ifs
        · have := refill_loop_ok_from f 2
            { s with audio_pos := s.audio_pos - s.downsample_factor } hr hs
          rcases h : refill_loop f 2 { s with audio_pos := s.audio_pos - s.downsample_factor }
            with ⟨b, v⟩
          rw [h] at this
          simp only at this
          subst this
          rfl
        · rfl
      rcases h : next_frame f { s with audio_pos := s.audio_pos - s.downsample_factor }
        with ⟨b, v⟩
      rw [h] at this
      simp only at this
      subst this
      rfl
    · rfl
  rcases h : need_sample f s with ⟨b, u⟩
  rw [h] at hn
  simp only at hn
  subst hn
  rw [tick_of_need_sample f i s u m h]

/-- With a reader that does not fail from the current call counts on, the sample
loop returns `0`. -/
theorem sample_loop_ok_from (f : SndFile) (n i : Nat) (s : State) (m : MpxBuffer)
    (hr : ∀ k, s.nreads ≤ k → 0 ≤ f.read_count k)
    (hs : ∀ k, s.nseeks ≤ k → 0 ≤ f.seek_result k) :
    (sample_loop f n i s m).1 = 0 := by
  induction n generalizing i s m with
  | zero => rfl
  | succ n ih =>
    simp only [sample_loop]
    have hk := tick_ok_from f i s m hr hs
    have hc := tick_counts f i s m
    rcases ht : tick f i s m with ⟨b, s1, m1⟩
    rw [ht] at hk hc
    simp only at hk hc
    subst hk
    exact ih _ _ _ (fun k hk => hr k (le_trans hc.1 hk))
      (fun k hk => hs k (le_trans hc.2.2.1 hk))

/-- C12.  A refill makes at least one and at most two reads and at most two
seeks, whatever the reader returns.  A negative first read ends it with `-1`
after that single read and no seek; an empty first read followed by a failed
seek ends it with `-1` after one read and one seek; a negative retry read ends it
with `-1` after two reads and one seek; a failed second seek ends it with `-1`
after two reads and two seeks.  A refill that ends with `-1` makes its iteration
return `-1` at once, and an iteration that returns `-1` ends
`fm_mpx_get_samples` with `-1` in the state of that iteration: nothing more is
read.  If from the call on no read is negative and no seek fails, the call
returns `0`. -/
theorem C12_refill_errors (f : SndFile) (s : State) :
    (s.nreads + 1 ≤ (refill_loop f 2 s).2.nreads ∧
      (refill_loop f 2 s).2.nreads ≤ s.nreads + 2 ∧
      (refill_loop f 2 s).2.nseeks ≤ s.nseeks + 2) ∧
    (f.read_count s.nreads < 0 →
      (refill_loop f 2 s).1 = false ∧ (refill_loop f 2 s).2.nreads = s.nreads + 1 ∧
      (refill_loop f 2 s).2.nseeks = s.nseeks) ∧
    (f.read_count s.nreads = 0 → f.seek_result s.nseeks < 0 →
      (refill_loop f 2 s).1 = false ∧ (refill_loop f 2 s).2.nreads = s.nreads + 1 ∧
      (refill_loop f 2 s).2.nseeks = s.nseeks + 1) ∧
    (f.read_count s.nreads = 0 → 0 ≤ f.seek_result s.nseeks →
      f.read_count (s.nreads + 1) < 0 →
      (refill_loop f 2 s).1 = false ∧ (refill_loop f 2 s).2.nreads = s.nreads + 2 ∧
      (refill_loop f 2 s).2.nseeks = s.nseeks + 1) ∧
    (f.read_count s.nreads = 0 → 0 ≤ f.seek_result s.nseeks →
      f.read_count (s.nreads + 1) = 0 → f.seek_result (s.nseeks + 1) < 0 →
      (refill_loop f 2 s).1 = false ∧ (refill_loop f 2 s).2.nreads = s.nreads + 2 ∧
      (refill_loop f 2 s).2.nseeks = s.nseeks + 2) ∧
    (s.downsample_factor ≤ s.audio_pos → s.audio_len ≤ s.channels →
      (refill_loop f 2 { s with audio_pos := s.audio_pos - s.downsample_factor }).1 = false →
      ∀ (i : Nat) (m : MpxBuffer), tick f i s m =
        (false, (refill_loop f 2 { s with audio_pos := s.audio_pos - s.downsample_factor }).2,
          m)) ∧
    (∀ (n i : Nat) (m : MpxBuffer), (tick f i s m).1 = false →
      sample_loop f (n + 1) i s m = (-1, (tick f i s m).2.1, (tick f i s m).2.2)) ∧
    (∀ (i : Nat) (m : MpxBuffer), (tick f i s m).2.1.nreads ≤ s.nreads + 2) ∧
    ((∀ k, s.nreads ≤ k → 0 ≤ f.read_count k) →
      (∀ k, s.nseeks ≤ k → 0 ≤ f.seek_result k) →
      ∀ (rds : Nat → ℚ) (m : MpxBuffer), (fm_mpx_get_samples f rds s m).1 = 0) := by
  refine ⟨⟨refill_loop_reads f s, (refill_loop_counts f 2 s).2.1,
    (refill_loop_counts f 2 s).2.2.2⟩, ?_, ?_, ?_, ?_, ?_, ?_, ?_, ?_⟩
  · intro h
    simp [refill_loop, h]
  · intro h0 hs
    simp [refill_loop, h0, hs]
  · intro h0 hs h1
    simp [refill_loop, h0, not_lt.mpr hs, h1]
  · intro h0 hs h1 hs1
    simp [refill_loop, h0, not_lt.mpr hs, h1, hs1]
  · intro hpos hneed hfail i m
    rw [tick_refill f i s m hpos hneed]
    rcases hr : refill_loop f 2 { s with audio_pos := s.audio_pos - s.downsample_factor }
      with ⟨b, v⟩
    rw [hr] at hfail
    simp only at hfail
    subst hfail
    rfl
  · intro n i m h
    simp only [sample_loop]
    rcases ht : tick f i s m with ⟨b, s1, m1⟩
    rw [ht] at h
    simp only at h
    subst h
    rfl
  · intro i m
    exact (tick_counts f i s m).2.1
  · intro hr hs rds m
    simp only [fm_mpx_get_samples]
    split_ifs
    · exact sample_loop_ok_from f _ _ _ _ hr hs
    · rfl

/-- Witness of `C12_refill_errors`: a failing first read ends the call with `-1`
after one read and no seek, and a reader that never fails gives `0`. -/
theorem C12_refill_errors_witness :
    (refill_loop broken_file 2 opened_mono_1).1 = false ∧
    (refill_loop broken_file 2 opened_mono_1).2.nreads = opened_mono_1.nreads + 1 ∧
    (refill_loop broken_file 2 opened_mono_1).2.nseeks = opened_mono_1.nseeks ∧
    (fm_mpx_get_samples const_mono_file (fun _ => 0) opened_mono_1 (fun _ => 0)).1 = 0 :=
  ⟨((C12_refill_errors broken_file opened_mono_1).2.1 (by simp [broken_file])).1,
   ((C12_refill_errors broken_file opened_mono_1).2.1 (by simp [broken_file])).2.1,
   ((C12_refill_errors broken_file opened_mono_1).2.1 (by simp [broken_file])).2.2,
   (C12_refill_errors const_mono_file opened_mono_1).2.2.2.2.2.2.2.2
     (by simp [const_mono_file]) (by simp [const_mono_file]) (fun _ => 0) (fun _ => 0)⟩

/-! ## C13: the pre-emphasis stage of the filter design -/

/-- For every rate that is not a multiple of `2^27` the 32-bit product
`in_samplerate*FIR_PHASES` is a non-zero multiple of 32, at least 32 in absolute
value. -/
theorem rate_phases_large (rate : Int) (hnz : ¬ (134217728 : Int) ∣ rate) :
    32 ≤ rate_phases rate ∨ rate_phases rate ≤ -32 := by
  unfold rate_phases int_mul FIR_PHASES
  omega

/-- For every multiple of `2^27` the 32-bit product `in_samplerate*FIR_PHASES` is
`0`. -/
theorem rate_phases_zero (rate : Int) (hz : (134217728 : Int) ∣ rate) :
    rate_phases rate = 0 := by
  unfold rate_phases int_mul FIR_PHASES
  omega

/-- While the exact product fits an `int`, `in_samplerate*FIR_PHASES` is that
product. -/
theorem rate_phases_exact (rate : Int) (h0 : 0 ≤ rate) (h1 : rate < 67108864) :
    rate_phases rate = rate * 32 := by
  unfold rate_phases int_mul FIR_PHASES
  omega

/-- The integer quotient `1/p` is `0` once `p` is at least 32 in absolute value. -/
theorem tdiv_one_large (p : Int) (h : 32 ≤ p ∨ p ≤ -32) : Int.tdiv 1 p = 0 := by
  rcases h with h | h
  · exact Int.tdiv_eq_zero_of_lt (by norm_num) (by omega)
  · have e : Int.tdiv 1 (-(-p)) = -(Int.tdiv 1 (-p)) := Int.tdiv_neg 1 (-p)
    rw [neg_neg] at e
    rw [e, Int.tdiv_eq_zero_of_lt (by norm_num) (by omega)]
    rfl

/-- For every rate that is not a multiple of `2^27` the integer term
`1/(in_samplerate*FIR_PHASES)` is `0`. -/
theorem int_term_zero (rate : Int) (hnz : ¬ (134217728 : Int) ∣ rate) :
    int_term rate = some 0 := by
  have h := rate_phases_large rate hnz
  have hne : rate_phases rate ≠ 0 := by omega
  unfold int_term
  rw [if_neg hne, tdiv_one_large _ h]

/-- For every multiple of `2^27` the integer term `1/(in_samplerate*FIR_PHASES)`
has no value, and neither have the coefficients nor the table. -/
theorem int_term_trap (L : Libm) (cutoff : ℚ) (rate : Int) (hz : (134217728 : Int) ∣ rate) :
    int_term rate = none ∧ preemph L rate = none ∧ filter_design L cutoff rate = none := by
  have h0 : int_term rate = none := by
    unfold int_term
    rw [if_pos (rate_phases_zero rate hz)]
  have h1 : preemph L rate = none := by
    unfold preemph
    rw [h0]
  refine ⟨h0, h1, ?_⟩
  unfold filter_design
  rw [h1]

/-- The coefficients when the integer term is `0`. -/
theorem preemph_coeffs (L : Libm) (p : Int)
    (hbp : (preemph_values L p 0).bp ≠ 0) :
    (preemph_values L p 0).a1 = -(preemph_values L p 0).a0 ∧
    (preemph_values L p 0).b1 = 1 ∧
    (preemph_values L p 0).a0 = (preemph_values L p 0).ap / (preemph_values L p 0).bp := by
  have e0 : (preemph_values L p 0).a0 =
      (2.0 * (preemph_values L p 0).ap + (((0 : Int)) : ℚ)) /
        (2.0 * (preemph_values L p 0).bp + (((0 : Int)) : ℚ)) := rfl
  have e1 : (preemph_values L p 0).a1 =
      (-2.0 * (preemph_values L p 0).ap + (((0 : Int)) : ℚ)) /
        (2.0 * (preemph_values L p 0).bp + (((0 : Int)) : ℚ)) := rfl
  have e2 : (preemph_values L p 0).b1 =
      (2.0 * (preemph_values L p 0).bp + (((0 : Int)) : ℚ)) /
        (2.0 * (preemph_values L p 0).bp + (((0 : Int)) : ℚ)) := rfl
  rw [e0, e1, e2]
  generalize (preemph_values L p 0).ap = ap at *
  generalize (preemph_values L p 0).bp = bp at *
  have h2 : (2.0 : ℚ) * bp ≠ 0 := mul_ne_zero (by norm_num) hbp
  simp only [Int.cast_zero, add_zero]
  refine ⟨?_, div_self h2, ?_⟩
  · rw [neg_mul, neg_div]
  · rw [mul_div_mul_left _ _ (by norm_num : (2.0 : ℚ) ≠ 0)]

/-- The recurrence of the design loop with `a1 = -a0` and `b1 = 1`: after
iteration `n >= 1`, `x` is the low-pass tap and `y` is `a0` times that tap. -/
theorem design_loop_xy (L : Libm) (c : Preemph) (cutoff : ℚ) (rate : Int)
    (ha : c.a1 = -c.a0) (hb : c.b1 = 1) (n : Nat) :
    (design_loop L c cutoff rate (n + 1)).x = firlowpass L cutoff rate (n + 1) ∧
    (design_loop L c cutoff rate (n + 1)).y = c.a0 * firlowpass L cutoff rate (n + 1) := by
  induction n with
  | zero =>
    simp [design_loop, design_step]
  | succ n ih =>
    obtain ⟨hx, hy⟩ := ih
    refine ⟨rfl, ?_⟩
    show c.a0 * firlowpass L cutoff rate (n + 1 + 1) +
      c.a1 * (design_loop L c cutoff rate (n + 1)).x +
      c.b1 * (design_loop L c cutoff rate (n + 1)).y = _
    rw [hx, hy, ha, hb]
    ring

/-- The entry `i-1` of the table is the one written at iteration `i`. -/
theorem design_loop_table (L : Libm) (c : Preemph) (cutoff : ℚ) (rate : Int)
    (i n : Nat) (hi : 1 ≤ i) (hn : i ≤ n) :
    (design_loop L c cutoff rate n).low_pass_fir ((i : Int) - 1) =
      (design_loop L c cutoff rate i).y * window L i * gain := by
  induction n with
  | zero => omega
  | succ n ih =>
    rcases Nat.eq_or_lt_of_le hn with h | h
    · subst h
      show Function.update _ _ _ _ = _
      rw [Function.update_same]
      rfl
    · have hne : ((i : Int) - 1) ≠ (((n + 1 : Nat) : Int) - 1) := by
        push_cast
        omega
      show Function.update _ _ _ _ = _
      rw [Function.update_noteq hne]
      exact ih (by omega)

/-- C13, counterexample.  At the rate `2^27 = 134217728 >= 1` the 32-bit product
`in_samplerate*FIR_PHASES` is `0`, so the term `1/(in_samplerate*FIR_PHASES)` is a
division by zero and does not evaluate to `0`; no coefficient is computed. -/
theorem C13_counterexample :
    (1 : Int) ≤ 134217728 ∧ rate_phases 134217728 = 0 ∧
    int_term 134217728 = none ∧ int_term 134217728 ≠ some 0 ∧
    preemph const_libm 134217728 = none ∧
    filter_design const_libm 15700 134217728 = none := by
  have hz : (134217728 : Int) ∣ 134217728 := dvd_refl _
  obtain ⟨h0, h1, h2⟩ := int_term_trap const_libm 15700 134217728 hz
  refine ⟨by norm_num, rate_phases_zero _ hz, h0, ?_, h1, h2⟩
  rw [h0]
  exact fun h => Option.noConfusion h

/-- C13, as amended.  For every input sample rate `>= 1` that is not a multiple of
`2^27` the term `1/(in_samplerate*FIR_PHASES)` is `0` and the coefficients `c` are
computed; when `bp` is not zero, `a1 = -a0`, `b1 = 1` and `a0 = ap/bp`; the
recurrence `y = a0*firlowpass + a1*x + b1*y` from `x = y = 0` gives
`y = a0 * firlowpass` at every iteration `1..1024`; the table is computed and every
coefficient stored, by the design loop and so by `fm_mpx_open`, is
`a0 * firlowpass_i * window_i * gain`. -/
theorem C13_preemphasis_constant_gain (L : Libm) (cutoff : ℚ) (rate : Int)
    (hrate : 1 ≤ rate) (hnz : ¬ (134217728 : Int) ∣ rate) :
    int_term rate = some 0 ∧
    ∃ c : Preemph, preemph L rate = some c ∧
      (c.bp ≠ 0 →
        c.a1 = -c.a0 ∧ c.b1 = 1 ∧ c.a0 = c.ap / c.bp ∧
        (∀ i : Nat, 1 ≤ i → i ≤ 1024 →
          (design_loop L c cutoff rate i).y = c.a0 * firlowpass L cutoff rate i) ∧
        (∃ tbl : Int → ℚ, filter_design L cutoff rate = some tbl ∧
          ∀ i : Nat, 1 ≤ i → i ≤ 1024 →
            tbl ((i : Int) - 1) = c.a0 * firlowpass L cutoff rate i * window L i * gain) ∧
        (∀ (design : ℚ → Int → Int → ℚ),
          filter_design L (cutoff_freq rate) rate = some (design (cutoff_freq rate) rate) →
          ∀ (ch : Int) (len : Nat) (alloc_ok : Bool) (g : State) (i : Nat),
            1 ≤ i → i ≤ 1024 →
            (fm_mpx_open (some (some ⟨rate, ch⟩)) len design alloc_ok
                g).2.low_pass_fir ((i : Int) - 1) =
              c.a0 * firlowpass L (cutoff_freq rate) rate i * window L i * gain)) := by
  have hrate' := hrate
  have ht := int_term_zero rate hnz
  have hp : preemph L rate = some (preemph_values L (rate_phases rate) 0) := by
    unfold preemph
    rw [ht]
  refine ⟨ht, preemph_values L (rate_phases rate) 0, hp, fun hbp => ?_⟩
  obtain ⟨ha, hb, h0⟩ := preemph_coeffs L (rate_phases rate) hbp
  generalize preemph_values L (rate_phases rate) 0 = c at hp ha hb h0 ⊢
  have hy : ∀ (q : ℚ) (i : Nat), 1 ≤ i →
      (design_loop L c q rate i).y = c.a0 * firlowpass L q rate i := by
    intro q i hi
    obtain ⟨j, rfl⟩ : ∃ j, i = j + 1 := ⟨i - 1, by omega⟩
    exact (design_loop_xy L c q rate ha hb j).2
  have hfd : ∀ q : ℚ, filter_design L q rate =
      some (design_loop L c q rate 1024).low_pass_fir := by
    intro q
    have e : FIR_SIZE.toNat = 1024 := by decide
    unfold filter_design
    rw [hp, e]
  have htab : ∀ (q : ℚ) (i : Nat), 1 ≤ i → i ≤ 1024 →
      (design_loop L c q rate 1024).low_pass_fir ((i : Int) - 1) =
        c.a0 * firlowpass L q rate i * window L i * gain := by
    intro q i hi hi2
    rw [design_loop_table L c q rate i 1024 hi hi2, hy q i hi]
  refine ⟨ha, hb, h0, fun i hi _ => hy cutoff i hi,
    ⟨_, hfd cutoff, htab cutoff⟩, ?_⟩
  intro design hdes ch len alloc_ok g i hi hi2
  rw [hfd (cutoff_freq rate)] at hdes
  have hd : design (cutoff_freq rate) rate =
      (design_loop L c (cutoff_freq rate) rate 1024).low_pass_fir :=
    (Option.some.inj hdes).symm
  have := htab (cutoff_freq rate) i hi hi2
  cases alloc_ok <;> simpa [fm_mpx_open, hd] using this

/-- Witness of `C13_preemphasis_constant_gain` at 44100 Hz with constant stand-ins
for the functions of `math.h`. -/
theorem C13_preemphasis_constant_gain_witness :
    int_term 44100 = some 0 ∧
    ∃ c : Preemph, preemph const_libm 44100 = some c ∧ c.bp ≠ 0 ∧ c.a1 = -c.a0 ∧ c.b1 = 1 := by
  obtain ⟨h0, c, hc, h⟩ := C13_preemphasis_constant_gain const_libm 15700 44100
    (by norm_num) (by norm_num)
  have hc2 : preemph const_libm 44100 =
      some (preemph_values const_libm (rate_phases 44100) 0) := by
    unfold preemph
    rw [h0]
  have hbp : c.bp ≠ 0 := by
    rw [hc2] at hc
    rw [← Option.some.inj hc]
    simp [preemph_values, const_libm]
    norm_num
  exact ⟨h0, c, hc, hbp, (h hbp).1, (h hbp).2.1⟩

/-! ## C14: the phase index when upsampling -/

/-- For a factor `>= 1`, from `audio_pos = downsample_factor`, every run keeps
`0 <= audio_pos < downsample_factor + 1` at the start of an iteration. -/
theorem ticks_pos_inv (f : SndFile) (s : State) (hd : 1 ≤ s.downsample_factor)
    (hp : s.audio_pos = s.downsample_factor) (n : Nat) (t : State) (ht : TicksTo f n s t) :
    0 ≤ t.audio_pos ∧ t.audio_pos < t.downsample_factor + 1 := by
  induction ht with
  | refl => exact ⟨by rw [hp]; linarith, by rw [hp]; linarith⟩
  | @step n s t v i m m1 hst htv ih =>
    obtain ⟨i0, i1⟩ := ih hd hp
    have hcv : v.downsample_factor = t.downsample_factor := by
      have := tick_config f i t m
      rw [htv] at this
      exact this.downsample_factor
    have hdt : 1 ≤ t.downsample_factor := by rw [hst.config.downsample_factor]; exact hd
    obtain ⟨h1, h2⟩ := tick_pos_hist f i t v m m1 htv
    rcases le_or_lt t.downsample_factor t.audio_pos with hge | hlt
    · obtain ⟨e, -⟩ := h1 hge
      rw [e, hcv]
      constructor <;> linarith
    · obtain ⟨e, -⟩ := h2 hlt
      rw [e, hcv]
      constructor <;> linarith

/-- The phase index computed from a position in `[0, downsample_factor)` is in
`[0, FIR_PHASES)`. -/
theorem raw_phase_range (u : State) (hd : 0 < u.downsample_factor)
    (h0 : 0 ≤ u.audio_pos) (h1 : u.audio_pos < u.downsample_factor) :
    0 ≤ raw_phase u ∧ raw_phase u < FIR_PHASES := by
  have hq0 : 0 ≤ u.audio_pos * (FIR_PHASES : ℚ) / u.downsample_factor := by
    apply div_nonneg _ hd.le
    apply mul_nonneg h0
    simp [FIR_PHASES]
  have hq1 : u.audio_pos * (FIR_PHASES : ℚ) / u.downsample_factor < 32 := by
    rw [div_lt_iff₀ hd]
    simp only [FIR_PHASES]
    push_cast
    linarith
  unfold raw_phase c_int
  rw [if_pos hq0]
  refine ⟨Int.floor_nonneg.mpr hq0, ?_⟩
  unfold FIR_PHASES
  rw [Int.floor_lt]
  exact_mod_cast hq1

/-- C14.  For every `downsample_factor >= 1`, from `audio_pos = downsample_factor`
as set at open, after any number of iterations: when the fetch block of the next
iteration succeeds, `0 <= audio_pos < downsample_factor` holds at the
interpolation point, the phase index `(int)(audio_pos*FIR_PHASES/downsample_factor)`
is in `[0, 31]`, neither condition of the sanity checks holds and the index is
used as it is, and at most one frame has been pushed by the iteration; the fetch
block succeeds whenever the reader never fails. -/
theorem C14_phase_in_range (f : SndFile) (s : State)
    (hd : 1 ≤ s.downsample_factor) (hp : s.audio_pos = s.downsample_factor)
    (n : Nat) (t : State) (ht : TicksTo f n s t) :
    ((need_sample f t).1 = true →
      0 ≤ (need_sample f t).2.audio_pos ∧
      (need_sample f t).2.audio_pos < (need_sample f t).2.downsample_factor ∧
      0 ≤ raw_phase (need_sample f t).2 ∧ raw_phase (need_sample f t).2 ≤ 31 ∧
      ¬ raw_phase (need_sample f t).2 < 0 ∧
      ¬ raw_phase (need_sample f t).2 ≥ FIR_PHASES ∧
      sanity_check (raw_phase (need_sample f t).2) = raw_phase (need_sample f t).2 ∧
      (need_sample f t).2.hist_left.length ≤ t.hist_left.length + 1) ∧
    (∀ (i : Nat) (m : MpxBuffer), (tick f i t m).1 = true →
      (tick f i t m).2.1.hist_left.length ≤ t.hist_left.length + 1) ∧
    ((∀ k, 0 ≤ f.read_count k) → (∀ k, 0 ≤ f.seek_result k) →
      (need_sample f t).1 = true) := by
  obtain ⟨i0, i1⟩ := ticks_pos_inv f s hd hp n t ht
  have hdt : 1 ≤ t.downsample_factor := by rw [ht.config.downsample_factor]; exact hd
  have hlen : ∀ u, need_sample f t = (true, u) →
      u.hist_left.length ≤ t.hist_left.length + 1 := by
    intro u hu
    obtain ⟨h1, h2⟩ := need_sample_inv f t u hu
    rcases le_or_lt t.downsample_factor t.audio_pos with hge | hlt
    · obtain ⟨-, v, hv, rfl⟩ := h1 hge
      have hfr := next_frame_frame f { t with audio_pos := t.audio_pos - t.downsample_factor }
      rw [hv] at hfr
      have : v.hist_left = t.hist_left := hfr.2.2.2.2.2.2.2.1
      simp [this]
    · rw [h2 hlt]; omega
  refine ⟨fun hok => ?_, fun i m hok => ?_, fun hr hs => need_sample_ok f hr hs t⟩
  · have hu : need_sample f t = (true, (need_sample f t).2) := Prod.ext hok rfl
    generalize (need_sample f t).2 = u at hu ⊢
    have hcu : u.downsample_factor = t.downsample_factor := by
      have := (need_sample_frame f t).1
      rw [hu] at this
      exact this.downsample_factor
    obtain ⟨h1, h2⟩ := need_sample_inv f t u hu
    have hpos : 0 ≤ u.audio_pos ∧ u.audio_pos < u.downsample_factor := by
      rcases le_or_lt t.downsample_factor t.audio_pos with hge | hlt
      · obtain ⟨e, -⟩ := h1 hge
        rw [e, hcu]
        constructor <;> linarith
      · rw [h2 hlt]; exact ⟨i0, hlt⟩
    have hdu : 0 < u.downsample_factor := by rw [hcu]; linarith
    obtain ⟨r0, r1⟩ := raw_phase_range u hdu hpos.1 hpos.2
    refine ⟨hpos.1, hpos.2, r0, ?_, not_lt.mpr r0, not_le.mpr r1,
      (sanity_check_cases _).2.1 r0 r1, hlen u hu⟩
    unfold FIR_PHASES at r1
    omega
  · have ht2 : tick f i t m = (true, (tick f i t m).2.1, (tick f i t m).2.2) :=
      Prod.ext hok rfl
    obtain ⟨u, hu, e⟩ := tick_inv f i t _ m _ ht2
    rw [e]
    simpa using hlen u hu

/-- Witness of `C14_phase_in_range` on a 44100 Hz mono stream: the first phase
index is used as computed. -/
theorem C14_phase_in_range_witness :
    sanity_check (raw_phase (need_sample const_mono_file
      (fm_mpx_open (some (some ⟨44100, 1⟩)) 1 (fun _ _ _ => 0) true globals0).2).2) =
    raw_phase (need_sample const_mono_file
      (fm_mpx_open (some (some ⟨44100, 1⟩)) 1 (fun _ _ _ => 0) true globals0).2).2 := by
  have h := C14_phase_in_range const_mono_file
    (fm_mpx_open (some (some ⟨44100, 1⟩)) 1 (fun _ _ _ => 0) true globals0).2
    (by simp [fm_mpx_open]; norm_num) (by simp [fm_mpx_open]) 0 _ (TicksTo.refl _)
  exact (h.1 (h.2.2 (by simp [const_mono_file]) (by simp [const_mono_file]))).2.2.2.2.2.2.1

/-! ## C15: the decode cursor between two refills -/

/-- The encoder block does not touch the decode buffer. -/
theorem stereo_mpx_audio_buffer (s : State) (m : MpxBuffer) (i : Nat) (l r : ℚ) :
    (stereo_mpx s m i l r).1.audio_buffer = s.audio_buffer := by
  unfold stereo_mpx; split_ifs <;> rfl

/-- A push does not touch the decode buffer. -/
theorem store_sample_audio_buffer (s : State) :
    (store_sample s).audio_buffer = s.audio_buffer := by
  unfold store_sample; split_ifs <;> rfl

/-- The decode cursor across one iteration of the sample loop: unchanged when no
frame is needed; advanced by one frame, without any read, when a frame is needed
and more than one frame is left; and at least one read is made when a frame is
needed and at most one frame is left. -/
theorem tick_cursor (f : SndFile) (i : Nat) (s : State) (m : MpxBuffer) :
    (s.audio_pos < s.downsample_factor →
      (tick f i s m).2.1.audio_index = s.audio_index ∧
      (tick f i s m).2.1.audio_len = s.audio_len ∧
      (tick f i s m).2.1.audio_buffer = s.audio_buffer ∧
      (tick f i s m).2.1.nreads = s.nreads ∧
      (tick f i s m).2.1.hist_left = s.hist_left) ∧
    (s.downsample_factor ≤ s.audio_pos → s.channels < s.audio_len →
      (tick f i s m).1 = true ∧
      (tick f i s m).2.1.audio_index = s.audio_index + s.channels ∧
      (tick f i s m).2.1.audio_len = s.audio_len - s.channels ∧
      (tick f i s m).2.1.audio_buffer = s.audio_buffer ∧
      (tick f i s m).2.1.nreads = s.nreads ∧
      (tick f i s m).2.1.hist_left =
        s.audio_buffer (s.audio_index + s.channels) :: s.hist_left) ∧
    (s.downsample_factor ≤ s.audio_pos → s.audio_len ≤ s.channels →
      s.nreads + 1 ≤ (tick f i s m).2.1.nreads) := by
  refine ⟨fun h => ?_, fun h1 h2 => ?_, fun h1 h2 => ?_⟩
  · simp [tick, need_sample, not_le.mpr h, stereo_mpx_audio_buffer]
  · simp [tick, need_sample, next_frame, h1, not_le.mpr h2, stereo_mpx_audio_buffer,
      store_sample_audio_buffer]
  · rw [tick_refill f i s m h1 h2]
    have h := refill_loop_reads f { s with audio_pos := s.audio_pos - s.downsample_factor }
    rcases hr : refill_loop f 2 { s with audio_pos := s.audio_pos - s.downsample_factor }
      with ⟨b, v⟩
    rw [hr] at h
    cases b
    · exact h
    · simpa using h

/-- The number of reads made never decreases along a run. -/
theorem ticks_nreads_mono (f : SndFile) (n : Nat) (s t : State) (ht : TicksTo f n s t) :
    s.nreads ≤ t.nreads := by
  induction ht with
  | refl => exact le_rfl
  | @step n s t u i m m1 _ htu ih =>
    have := (tick_counts f i t m).1
    rw [htu] at this
    exact le_trans ih this

/-- More than one frame is left exactly when the frame count `m - k` exceeds 1. -/
theorem frames_left (ch : Int) (m k : Nat) (hch : 1 ≤ ch) (hk : k < m) :
    ch < ((m : Int) - (k : Int)) * ch ↔ k + 1 < m := by
  constructor
  · intro h
    by_contra hc
    have hmk : (m : Int) - (k : Int) = 1 := by omega
    rw [hmk, one_mul] at h
    exact lt_irrefl _ h
  · intro h
    have h2 : (2 : Int) ≤ (m : Int) - (k : Int) := by omega
    nlinarith

/-- The decode cursor along a run that starts right after a refill of `m` frames
and makes no further read: after `k` more frames, `audio_index = k * channels`,
`audio_len = (m - k) * channels`, and the frames pushed are those at the offsets
`0, channels, ..., k * channels` of the decode buffer, in that order. -/
theorem cursor_run (f : SndFile) (t0 : State) (B : Int → ℚ) (H : List ℚ) (m : Nat)
    (hm : 1 ≤ m) (hch : 1 ≤ t0.channels) (hidx : t0.audio_index = 0)
    (hlen : t0.audio_len = (m : Int) * t0.channels) (hbuf : t0.audio_buffer = B)
    (hhist : t0.hist_left = B 0 :: H)
    (n : Nat) (t : State) (ht : TicksTo f n t0 t) (hnr : t.nreads = t0.nreads) :
    ∃ k : Nat, k < m ∧
      t.audio_index = (k : Int) * t0.channels ∧
      t.audio_len = ((m : Int) - (k : Int)) * t0.channels ∧
      t.audio_buffer = B ∧
      t.hist_left =
        (List.range (k + 1)).reverse.map (fun (j : Nat) => B ((j : Int) * t0.channels)) ++ H := by
  induction ht with
  | refl =>
    refine ⟨0, by omega, by simp [hidx], by simp [hlen], hbuf, ?_⟩
    simp [hhist, List.range_succ]
  | @step n s t u i mp mp1 hst htu ih =>
    have hmono1 := ticks_nreads_mono f n s t hst
    have hcnt := (tick_counts f i t mp).1
    have hcur := tick_cursor f i t mp
    rw [htu] at hcnt hcur
    simp only at hcnt hcur
    have htn : t.nreads = s.nreads := by omega
    obtain ⟨k, hk, e1, e2, e3, e4⟩ := ih hch hidx hlen hbuf hhist htn
    have hct : t.channels = s.channels := hst.config.channels
    rcases lt_or_le t.audio_pos t.downsample_factor with hlt | hge
    · obtain ⟨a1, a2, a3, -, a5⟩ := hcur.1 hlt
      exact ⟨k, hk, by rw [a1, e1], by rw [a2, e2], by rw [a3, e3], by rw [a5, e4]⟩
    · rcases lt_or_le t.channels t.audio_len with hmore | hlast
      · obtain ⟨-, a1, a2, a3, -, a5⟩ := hcur.2.1 hge hmore
        have hk1 : k + 1 < m := by
          rw [hct, e2] at hmore
          exact (frames_left s.channels m k hch hk).mp hmore
        refine ⟨k + 1, hk1, ?_, ?_, by rw [a3, e3], ?_⟩
        · rw [a1, e1, hct]; push_cast; ring
        · rw [a2, e2, hct]; push_cast; ring
        · rw [a5, e4, e3, e1, hct, List.range_succ (k + 1)]
          simp only [List.reverse_append, List.reverse_singleton, List.singleton_append,
            List.map_cons, List.cons_append]
          congr 2
          push_cast
          ring
      · have := hcur.2.2 hge hlast
        omega

/-- C15.  Let an iteration need a frame, have to refill, and its refill succeed
with `n = m * channels > 0` items (`channels >= 1`).  The iteration goes on with
`audio_index = 0` and `audio_len = n`, and along every run from there in which no
further read is made, with `k` the number of frames fetched since that refill:
`k < m`, `audio_index = k * channels`, `audio_len = (m - k) * channels`, so
`audio_index + audio_len = n`; the decode buffer is the one the refill left; the
frames pushed since the refill are exactly those at the offsets
`0, channels, ..., k * channels`, in that order, each once; an iteration that
needs no frame makes no read; and an iteration that needs a frame makes a read
(refills) exactly when `k + 1 = m`, that is when the frame at offset
`n - channels` was the last one fetched. -/
theorem C15_decode_cursor (f : SndFile) (s v : State) (i : Nat) (mpx : MpxBuffer) (m : Nat)
    (hm : 1 ≤ m) (hch : 1 ≤ s.channels) (hpos : s.downsample_factor ≤ s.audio_pos)
    (hneed : s.audio_len ≤ s.channels)
    (hre : refill_loop f 2 { s with audio_pos := s.audio_pos - s.downsample_factor } =
      (true, v))
    (hn : v.audio_len = (m : Int) * s.channels) :
    (tick f i s mpx).1 = true ∧
    (tick f i s mpx).2.1.audio_index = 0 ∧
    (tick f i s mpx).2.1.audio_len = v.audio_len ∧
    ∀ (n : Nat) (t : State), TicksTo f n (tick f i s mpx).2.1 t →
      t.nreads = (tick f i s mpx).2.1.nreads →
      ∃ k : Nat, k < m ∧
        t.audio_index = (k : Int) * s.channels ∧
        t.audio_len = ((m : Int) - (k : Int)) * s.channels ∧
        t.audio_index + t.audio_len = v.audio_len ∧
        t.audio_buffer = v.audio_buffer ∧
        t.hist_left =
          (List.range (k + 1)).reverse.map
            (fun (j : Nat) => v.audio_buffer ((j : Int) * s.channels)) ++ s.hist_left ∧
        (∀ (i' : Nat) (mpx' : MpxBuffer), t.audio_pos < t.downsample_factor →
          (tick f i' t mpx').2.1.nreads = t.nreads) ∧
        (∀ (i' : Nat) (mpx' : MpxBuffer), t.downsample_factor ≤ t.audio_pos →
          ((tick f i' t mpx').2.1.nreads = t.nreads ↔ k + 1 < m)) := by
  have e := tick_refill f i s mpx hpos hneed
  rw [hre] at e
  simp only at e
  have hvh : v.hist_left = s.hist_left := by
    have := (refill_loop_frame f 2
      { s with audio_pos := s.audio_pos - s.downsample_factor }).2.2.2.2.2.2.2.1
    rw [hre] at this
    exact this
  have hc0 : (tick f i s mpx).2.1.channels = s.channels := (tick_config f i s mpx).channels
  have h1 : (tick f i s mpx).1 = true := by rw [e]
  have h2 : (tick f i s mpx).2.1.audio_index = 0 := by rw [e]; simp
  have h3 : (tick f i s mpx).2.1.audio_len = v.audio_len := by rw [e]; simp
  have h4 : (tick f i s mpx).2.1.audio_buffer = v.audio_buffer := by
    rw [e]; simp [stereo_mpx_audio_buffer, store_sample_audio_buffer]
  have h5 : (tick f i s mpx).2.1.hist_left = v.audio_buffer 0 :: s.hist_left := by
    rw [e]; simp [hvh]
  refine ⟨h1, h2, h3, fun n t ht hnr => ?_⟩
  obtain ⟨k, hk, e1, e2, e3, e4⟩ := cursor_run f (tick f i s mpx).2.1 v.audio_buffer
    s.hist_left m hm (by rw [hc0]; exact hch) h2 (by rw [h3, hn, hc0]) h4 h5 n t ht hnr
  rw [hc0] at e1 e2 e4
  have hct : t.channels = s.channels := by rw [ht.config.channels, hc0]
  refine ⟨k, hk, e1, e2, by rw [e1, e2, hn]; ring, e3, e4, fun i' mpx' hlt => ?_,
    fun i' mpx' hge => ?_⟩
  · exact ((tick_cursor f i' t mpx').1 hlt).2.2.2.1
  · have hfl := frames_left s.channels m k hch hk
    constructor
    · intro hsame
      by_contra hc
      have hlast : t.audio_len ≤ t.channels := by
        rw [hct, e2]
        exact not_lt.mp (fun h => hc (hfl.mp h))
      have := (tick_cursor f i' t mpx').2.2 hge hlast
      omega
    · intro hk1
      have hmore : t.channels < t.audio_len := by
        rw [hct, e2]; exact hfl.mpr hk1
      exact ((tick_cursor f i' t mpx').2.1 hge hmore).2.2.2.2.1

/-- Witness of `C15_decode_cursor`: the first iteration on a stream whose reads
return one mono frame each. -/
theorem C15_decode_cursor_witness :
    (tick const_mono_file 0 opened_mono_1 (fun _ => 0)).1 = true ∧
    (tick const_mono_file 0 opened_mono_1 (fun _ => 0)).2.1.audio_index = 0 :=
  have h := C15_decode_cursor const_mono_file opened_mono_1
    (refill_loop const_mono_file 2
      { opened_mono_1 with
        audio_pos := opened_mono_1.audio_pos - opened_mono_1.downsample_factor }).2
    0 (fun _ => 0) 1 (by norm_num)
    (by simp [opened_mono_1, fm_mpx_open])
    (by simp [opened_mono_1, fm_mpx_open])
    (by simp [opened_mono_1, fm_mpx_open, globals0])
    (Prod.ext (by simp [refill_loop, const_mono_file, opened_mono_1, fm_mpx_open, globals0])
      rfl)
    (by simp [refill_loop, const_mono_file, opened_mono_1, fm_mpx_open, globals0])
  ⟨h.1, h.2.1⟩

/-! ## C16: every table and ring access is in bounds -/

/-- The result of the sanity checks is a phase index in `[0, FIR_PHASES)`,
whatever the raw value. -/
theorem sanity_check_range (r : Int) : 0 ≤ sanity_check r ∧ sanity_check r < FIR_PHASES := by
  obtain ⟨h1, h2, h3⟩ := sanity_check_cases r
  unfold FIR_PHASES at h2 h3 ⊢
  rcases lt_or_le r 0 with hneg | hnn
  · rw [h1 hneg]; omega
  · rcases lt_or_le r 32 with hlt | hge
    · rw [h2 hnn hlt]; omega
    · rw [h3 hge]; omega

/-- The fetch block keeps `fir_index` in `[0, FIR_SIZE)`. -/
theorem need_sample_fir_index (f : SndFile) (s u : State) (h : need_sample f s = (true, u))
    (hb : 0 ≤ s.fir_index ∧ s.fir_index < FIR_SIZE) :
    0 ≤ u.fir_index ∧ u.fir_index < FIR_SIZE := by
  obtain ⟨h1, h2⟩ := need_sample_inv f s u h
  rcases le_or_lt s.downsample_factor s.audio_pos with hge | hlt
  · obtain ⟨-, v, hv, rfl⟩ := h1 hge
    have hfr := next_frame_frame f { s with audio_pos := s.audio_pos - s.downsample_factor }
    rw [hv] at hfr
    have e : v.fir_index = s.fir_index := hfr.2.2.2.2.1
    rw [store_sample_fir_index, e]
    unfold FIR_SIZE at hb ⊢
    split_ifs <;> omega
  · rw [h2 hlt]; exact hb

/-- An iteration keeps the carrier phases inside their tables. -/
theorem tick_phase_bounds (f : SndFile) (i : Nat) (s t : State) (m m1 : MpxBuffer)
    (h : tick f i s m = (true, t, m1))
    (h19 : 0 ≤ s.phase_19 ∧ s.phase_19 < 12) (h38 : 0 ≤ s.phase_38 ∧ s.phase_38 < 6) :
    (0 ≤ t.phase_19 ∧ t.phase_19 < 12) ∧ (0 ≤ t.phase_38 ∧ t.phase_38 < 6) := by
  obtain ⟨u, hu, rfl⟩ := tick_inv f i s t m m1 h
  have hf := need_sample_frame f s
  rw [hu] at hf
  obtain ⟨-, e19, e38⟩ := hf
  simp only at e19 e38
  simp only [stereo_mpx]
  split_ifs <;> simp only [e19, e38] <;> omega

/-- Along every run from `fir_index = 0` and zero phases, `fir_index` and the
carrier phases stay inside their arrays. -/
theorem ticks_bounds (f : SndFile) (s : State) (hidx : s.fir_index = 0)
    (h19 : s.phase_19 = 0) (h38 : s.phase_38 = 0) (n : Nat) (t : State)
    (ht : TicksTo f n s t) :
    (0 ≤ t.fir_index ∧ t.fir_index < FIR_SIZE) ∧
    (0 ≤ t.phase_19 ∧ t.phase_19 < 12) ∧ (0 ≤ t.phase_38 ∧ t.phase_38 < 6) := by
  induction ht with
  | refl =>
    rw [hidx, h19, h38]
    unfold FIR_SIZE
    omega
  | @step n s t v i m m1 hst htv ih =>
    obtain ⟨a, b, c⟩ := ih hidx h19 h38
    obtain ⟨u, hu, e⟩ := tick_inv f i t v m m1 htv
    have hfi := need_sample_fir_index f t u hu a
    have hph := tick_phase_bounds f i t v m m1 htv b c
    refine ⟨?_, hph.1, hph.2⟩
    rw [e]
    simpa using hfi

/-- C16.  In every state `u` reached from a state with `fir_index = 0` and zero
carrier phases by any number of iterations, and at the interpolation point of the
next iteration: `0 <= fir_index < FIR_SIZE`; for every tap `fi` in `[0, FIR_TAPS)`
the ring index `(fir_index - fi) & (FIR_SIZE-1)` is in `[0, FIR_SIZE)` and, for
every raw phase value `r`, the coefficient index `iphase + FIR_PHASES*fi` after the
sanity checks is in `[0, FIR_SIZE)`; `0 <= phase_19 < 12` and `0 <= phase_38 < 6`,
the lengths of the carrier tables. -/
theorem C16_accesses_in_bounds (f : SndFile) (s : State) (hidx : s.fir_index = 0)
    (h19 : s.phase_19 = 0) (h38 : s.phase_38 = 0) (n : Nat) (t u : State)
    (ht : TicksTo f n s t) (hu : u = t ∨ need_sample f t = (true, u)) :
    (0 ≤ u.fir_index ∧ u.fir_index < FIR_SIZE) ∧
    (∀ fi : Int, 0 ≤ fi → fi < FIR_TAPS →
      (0 ≤ ring_slot u.fir_index fi ∧ ring_slot u.fir_index fi < FIR_SIZE) ∧
      (∀ r : Int, 0 ≤ sanity_check r + FIR_PHASES * fi ∧
        sanity_check r + FIR_PHASES * fi < FIR_SIZE)) ∧
    (0 ≤ u.phase_19 ∧ u.phase_19 < (carrier_19_init.length : Int)) ∧
    (0 ≤ u.phase_38 ∧ u.phase_38 < (carrier_38_init.length : Int)) ∧
    FIR_SIZE = 1024 ∧ carrier_19_init.length = 12 ∧ carrier_38_init.length = 6 := by
  obtain ⟨a, b, c⟩ := ticks_bounds f s hidx h19 h38 n t ht
  have hall : (0 ≤ u.fir_index ∧ u.fir_index < FIR_SIZE) ∧
      (0 ≤ u.phase_19 ∧ u.phase_19 < 12) ∧ (0 ≤ u.phase_38 ∧ u.phase_38 < 6) := by
    rcases hu with rfl | hu
    · exact ⟨a, b, c⟩
    · have hf := need_sample_frame f t
      rw [hu] at hf
      obtain ⟨-, e19, e38⟩ := hf
      simp only at e19 e38
      exact ⟨need_sample_fir_index f t u hu a, by rw [e19]; exact b, by rw [e38]; exact c⟩
  have l19 : carrier_19_init.length = 12 := by decide
  have l38 : carrier_38_init.length = 6 := by decide
  refine ⟨hall.1, fun fi h0 h1 => ⟨?_, fun r => ?_⟩, ?_, ?_, rfl, l19, l38⟩
  · rw [ring_slot_eq]
    unfold FIR_SIZE
    omega
  · obtain ⟨s0, s1⟩ := sanity_check_range r
    have ht : FIR_TAPS = 32 := by decide
    rw [ht] at h1
    unfold FIR_PHASES at s1 ⊢
    unfold FIR_SIZE
    omega
  · rw [l19]; exact hall.2.1
  · rw [l38]; exact hall.2.2

/-- Witness of `C16_accesses_in_bounds` on the state left by `fm_mpx_open` for a
stereo stream. -/
theorem C16_accesses_in_bounds_witness :
    0 ≤ ring_slot opened_stereo_1.fir_index 5 ∧
    ring_slot opened_stereo_1.fir_index 5 < FIR_SIZE ∧
    sanity_check 40 + FIR_PHASES * 5 < FIR_SIZE :=
  have h := (C16_accesses_in_bounds const_stereo_file opened_stereo_1
    (by simp [opened_stereo_1, fm_mpx_open, globals0])
    (by simp [opened_stereo_1, fm_mpx_open, globals0])
    (by simp [opened_stereo_1, fm_mpx_open, globals0])
    0 opened_stereo_1 opened_stereo_1 (TicksTo.refl _) (Or.inl rfl)).2.1 5
    (by norm_num) (by decide)
  ⟨h.1.1, h.1.2, (h.2 40).2⟩

end FmMpx
